import Mathlib

/-!
Shallow embedding of `apex/contrib/optimizers/fused_adam.py` (class `FusedAdam`).

Modelling conventions:
* Machine floats are modelled as exact rationals (`ℚ`).
* Tensors are opaque values carrying only the observable bits the control
  logic inspects: an `isSparse` flag (`grad.is_sparse`) and an abstract
  content id.  The numeric kernel (`fused_adam_cuda.adam`, `adam_undo`,
  `adam_mt`) is an external collaborator; its effect on the moment buffers
  and its write to the overflow register are supplied by a `KernelOracle`
  over which all theorems quantify.  Writes to the externally owned
  parameter tensor itself are outside the state-store model.
* The shared overflow register (`self._overflow_buf`, a one-element int
  tensor) is a `Nat`; a kernel overflow write increments it, `zero_()`
  resets it, `.item()` reads it, truthiness is `≠ 0`.
* Python exceptions do not roll back mutations already made to
  `self.state`, so every operation returns its (possibly partially
  mutated) state together with an `Option StepError`.
* `zip` truncation semantics of the Python loops are mirrored by
  recursing only while every zipped list is nonempty.
-/

/-- A device tensor, reduced to the facts the host-side control logic
reads: the sparse flag and an opaque content identifier. -/
structure Tensor where
  isSparse : Bool
  val : Int
deriving DecidableEq, Repr

/-- Mirrors `torch.zeros_like(p.data)`: a fresh dense zero buffer. -/
def zerosLike (_t : Tensor) : Tensor := { isSparse := false, val := 0 }

/-- Mirrors `torch.tensor([], dtype = torch.float)`, the dummy output
buffer passed when no reduced-precision output is requested. -/
def emptyFloatTensor : Tensor := { isSparse := false, val := 0 }

/-- A parameter: its data tensor and its optionally attached gradient
(`p.grad`). Externally owned. -/
structure Param where
  data : Tensor
  grad : Option Tensor
deriving DecidableEq, Repr

/-- One parameter group with its hyperparameters (`self.param_groups[i]`). -/
structure ParamGroup where
  params : List Param
  lr : ℚ
  bias_correction : Bool
  beta1 : ℚ
  beta2 : ℚ
  eps : ℚ
  weight_decay : ℚ
  max_grad_norm : ℚ
deriving DecidableEq, Repr

/-- Per-parameter optimizer state `self.state[p]`:
`{'step': n, 'exp_avg': t1, 'exp_avg_sq': t2}`. -/
structure ParamState where
  step : Int
  exp_avg : Tensor
  exp_avg_sq : Tensor
deriving DecidableEq, Repr

/-- Errors raised during `_step`/`step` (Python exception kinds). -/
inductive StepError where
  /-- `RuntimeError: FusedAdam does not support sparse gradients`. -/
  | sparseGrad
  /-- `assert self._allow_undo` failing in `_step(undo=True)`. -/
  | undoNotAllowed
  /-- `assert not self._use_multi_tensor` failing in `_step(undo=True)`. -/
  | undoMultiTensor
  /-- `IndexError` from `grads[0]` / `output_params[0]` on an empty list. -/
  | indexError
  /-- `TypeError` from `grad_norm / scale` when `grad_norm` is `None`. -/
  | typeError
  /-- `NameError`: the leaked loop variable `state` was never assigned
  before the multi-tensor dispatch reads `state['step']`. -/
  | nameError
deriving DecidableEq, Repr

/-- Errors raised by `__init__`. -/
inductive ConfigError where
  /-- `RuntimeError: FusedAdam does not support the AMSGrad variant.` -/
  | amsgradUnsupported
  /-- `assert not self._allow_undo` when multi-tensor mode is active. -/
  | undoWithMultiTensor
deriving DecidableEq, Repr

/-- Trace of collaborator interactions made during a step, recording the
call site (group index, parameter index) and the `step` argument handed
to the kernel. -/
inductive Event where
  /-- `self._overflow_buf.zero_()` at the top of `step`. -/
  | zeroBuf
  /-- `fused_adam_cuda.adam(...)` for parameter `pi` of group `gi`. -/
  | adam (gi pi : Nat) (step : Int)
  /-- `fused_adam_cuda.adam_undo(...)` for parameter `pi` of group `gi`. -/
  | adamUndo (gi pi : Nat) (step : Int)
  /-- one `multi_tensor_applier(fused_adam_cuda.adam_mt, ...)` per group. -/
  | adamMT (gi : Nat) (step : Int)
deriving DecidableEq, Repr

/-- Argument record of the forward kernel `fused_adam_cuda.adam`
(overflow register and in-place output aliases omitted). -/
structure AdamArgs where
  p_in : Tensor
  out_p : Tensor
  m1 : Tensor
  m2 : Tensor
  grad : Tensor
  lr : ℚ
  beta1 : ℚ
  beta2 : ℚ
  eps : ℚ
  combined_scale : ℚ
  step : Int
  eps_mode : Nat
  bias_correction : Nat
  weight_decay : ℚ
deriving DecidableEq, Repr

/-- Result of one forward kernel call: the tensors it writes back in
place, plus whether it writes the overflow register. -/
structure AdamRes where
  p_out : Tensor
  m1_out : Tensor
  m2_out : Tensor
  overflow : Bool
deriving DecidableEq, Repr

/-- Argument record of the inverse kernel `fused_adam_cuda.adam_undo`. -/
structure UndoArgs where
  p_in : Tensor
  m1 : Tensor
  m2 : Tensor
  grad : Tensor
  lr : ℚ
  beta1 : ℚ
  beta2 : ℚ
  eps : ℚ
  combined_scale : ℚ
  step : Int
  eps_mode : Nat
  bias_correction : Nat
  weight_decay : ℚ
deriving DecidableEq, Repr

/-- Result of one inverse kernel call. -/
structure UndoRes where
  p_out : Tensor
  m1_out : Tensor
  m2_out : Tensor
deriving DecidableEq, Repr

/-- Behaviour of the external numeric kernel collaborator.  Theorems
quantify over every oracle; counterexamples pick a concrete one.
`adamMT` is indexed by the group index and the (single) `step` argument
the code hands it, returning whether it writes the overflow register. -/
structure KernelOracle where
  adam : AdamArgs → AdamRes
  adamUndo : UndoArgs → UndoRes
  adamMT : Nat → Int → Bool

/-- The values an attached `self._amp_stash` context would supply. -/
structure AmpStash where
  grads : Option (List (Option Tensor) ⊕ List (List (Option Tensor)))
  output_params : Option (List (Option Tensor) ⊕ List (List (Option Tensor)))
  scale : ℚ
  grad_norms : Option (List (Option ℚ))
deriving DecidableEq, Repr

/-- Raw gradient / output-buffer argument shapes: a flat sequence
(`type(grads[0]) != list`) or a nested sequence of sequences.  Absence
(`None`) is the `Option` wrapper at use sites.  Python distinguishes the
two at run time by inspecting the first element; on well-typed inputs
that inspection coincides with this tag.  Generator inputs behave like
the flat case and are not modelled separately. -/
def RawIn := List (Option Tensor) ⊕ List (List (Option Tensor))

instance : DecidableEq RawIn := by
  unfold RawIn
  infer_instance

/-- The optimizer object: hyperparameter groups, the lazily filled state
store (positionally aligned with `param_groups`), the shared overflow
register, and the construction-time flags. -/
structure FusedAdam where
  param_groups : List ParamGroup
  states : List (List (Option ParamState))
  overflow_buf : Nat
  use_multi_tensor : Bool
  allow_undo : Bool
  amp_scale_adjustment : ℚ
  eps_mode : Nat
  amp_stash : Option AmpStash
deriving DecidableEq, Repr

/-- Models `FusedAdam.__init__`.  `mtAvailable` is the environment fact
`multi_tensor_applier.available`; when it is false a requested
multi-tensor mode is silently dropped (only a warning is printed). -/
def FusedAdam.construct (paramGroups : List (List Param)) (lr : ℚ)
    (bias_correction : Bool) (beta1 beta2 : ℚ) (eps : ℚ)
    (eps_inside_sqrt : Bool) (weight_decay max_grad_norm : ℚ)
    (amsgrad use_mt : Bool) (amp_scale_adjustment : ℚ)
    (allow_undo : Bool) (mtAvailable : Bool) :
    Except ConfigError FusedAdam :=
  let useMT := use_mt && mtAvailable
  if amsgrad then .error .amsgradUnsupported
  else if useMT && allow_undo then .error .undoWithMultiTensor
  else .ok
    { param_groups := paramGroups.map fun ps =>
        { params := ps, lr := lr, bias_correction := bias_correction,
          beta1 := beta1, beta2 := beta2, eps := eps,
          weight_decay := weight_decay, max_grad_norm := max_grad_norm }
      states := paramGroups.map fun ps => List.replicate ps.length none
      overflow_buf := 0
      use_multi_tensor := useMT
      allow_undo := allow_undo
      amp_scale_adjustment := amp_scale_adjustment
      eps_mode := if eps_inside_sqrt then 0 else 1
      amp_stash := none }

/-- Property getter `has_overflow`: reads `self._overflow_buf.item()`
and then zeroes the register; returns the read value and the mutated
optimizer. -/
def FusedAdam.has_overflow (o : FusedAdam) : Nat × FusedAdam :=
  (o.overflow_buf, { o with overflow_buf := 0 })

/-- Property getter `peek_overflow`: reads `self._overflow_buf.item()`
without mutating anything; returns the read value and the (unchanged)
optimizer. -/
def FusedAdam.peek_overflow (o : FusedAdam) : Nat × FusedAdam :=
  (o.overflow_buf, o)

/-- Combined scale factor for one group (`_step`, lines 149-155):
start from `scale`; when `max_grad_norm > 0` compute
`clip = ((grad_norm / scale) + 1e-6) / max_grad_norm` and rescale when
`clip > 1`.  A missing `grad_norm` (`None`) makes the Python arithmetic
raise a `TypeError`. -/
def combinedScale (max_grad_norm : ℚ) (grad_norm : Option ℚ) (scale : ℚ) :
    Except StepError ℚ :=
  if 0 < max_grad_norm then
    match grad_norm with
    | none => .error .typeError
    | some n =>
      let clip := ((n / scale) + 1 / 1000000) / max_grad_norm
      if 1 < clip then .ok (clip * scale) else .ok scale
  else .ok scale

/-- Gradient used for a parameter: the supplied one, else `p.grad.data`
(`_step`, lines 167-170); `none` means the parameter is skipped. -/
def resolveGrad (g : Option Tensor) (p : Param) : Option Tensor :=
  match g with
  | some t => some t
  | none => p.grad

/-- Result of the per-parameter loop of `_step` over one group (and of
the group loop): the state-store slice, the overflow register, the
emitted kernel events, the leaked Python loop variable `state` (its
current `'step'` entry), and the pending exception, if any. -/
structure PRes where
  sts : List (Option ParamState)
  buf : Nat
  evs : List Event
  ls : Option Int
  err : Option StepError
deriving DecidableEq, Repr

/-- The body of the per-parameter loop of `_step` (lines 174-240) for a
parameter whose (non-sparse) gradient `gr` is present: fetch or
initialise `self.state[p]`, move the step counter, and either
accumulate for the batched call (multi-tensor mode) or invoke the
per-parameter kernel.  Returns the new per-parameter state, the new
overflow register, and the kernel events issued. -/
def stepParam (K : KernelOracle) (gi : Nat) (g : ParamGroup) (cs : ℚ)
    (epsMode biasCorr : Nat) (useMT undo : Bool) (p : Param) (gr : Tensor)
    (op0 : Option Tensor) (st : Option ParamState) (pi buf : Nat) :
    ParamState × Nat × List Event :=
  -- `state = self.state[p]`, initialised on first use
  let st0 := st.getD
    { step := 0, exp_avg := zerosLike p.data,
      exp_avg_sq := zerosLike p.data }
  -- undo: `step = state['step']; state['step'] -= 1`
  -- forward: `state['step'] += 1; step = state['step']`
  let kStep : Int := if undo then st0.step else st0.step + 1
  let newStep : Int := if undo then st0.step - 1 else st0.step + 1
  if useMT then
    -- tensors are only accumulated here; the kernel runs once per group
    ({ step := newStep, exp_avg := st0.exp_avg,
       exp_avg_sq := st0.exp_avg_sq }, buf, [])
  else if undo then
    let res := K.adamUndo
      { p_in := p.data, m1 := st0.exp_avg, m2 := st0.exp_avg_sq,
        grad := gr, lr := g.lr, beta1 := g.beta1, beta2 := g.beta2,
        eps := g.eps, combined_scale := cs, step := kStep,
        eps_mode := epsMode, bias_correction := biasCorr,
        weight_decay := g.weight_decay }
    ({ step := newStep, exp_avg := res.m1_out, exp_avg_sq := res.m2_out },
     buf, [.adamUndo gi pi kStep])
  else
    let res := K.adam
      { p_in := p.data, out_p := op0.getD emptyFloatTensor,
        m1 := st0.exp_avg, m2 := st0.exp_avg_sq, grad := gr, lr := g.lr,
        beta1 := g.beta1, beta2 := g.beta2, eps := g.eps,
        combined_scale := cs, step := kStep, eps_mode := epsMode,
        bias_correction := biasCorr, weight_decay := g.weight_decay }
    ({ step := newStep, exp_avg := res.m1_out, exp_avg_sq := res.m2_out },
     (if res.overflow then buf + 1 else buf), [.adam gi pi kStep])

/-- The per-parameter loop of `_step` (lines 165-240) over one group.
Iterates `zip(group['params'], grads_this_group, output_params_this_group)`
together with the positionally aligned state-store slice, threading the
overflow register, the event list, and the leaked `state` variable.
An exception stops the iteration but keeps mutations already made. -/
def procParams (K : KernelOracle) (gi : Nat) (g : ParamGroup) (cs : ℚ)
    (epsMode biasCorr : Nat) (useMT undo : Bool) :
    List Param → List (Option Tensor) → List (Option Tensor) →
    List (Option ParamState) → Nat → Nat → Option Int → PRes
  | p :: ps, gr0 :: grs, op0 :: ops, st :: sts, pi, buf, ls =>
    match resolveGrad gr0 p with
    | none =>
      -- `if p.grad is None and grad is None: continue`
      let r := procParams K gi g cs epsMode biasCorr useMT undo
                 ps grs ops sts (pi + 1) buf ls
      { r with sts := st :: r.sts }
    | some gr =>
      if gr.isSparse then
        -- raised before `self.state[p]` is touched
        { sts := st :: sts, buf := buf, evs := [], ls := ls,
          err := some .sparseGrad }
      else
        let z := stepParam K gi g cs epsMode biasCorr useMT undo
                   p gr op0 st pi buf
        let r := procParams K gi g cs epsMode biasCorr useMT undo
                   ps grs ops sts (pi + 1) z.2.1 (some z.1.step)
        { r with sts := some z.1 :: r.sts, evs := z.2.2 ++ r.evs }
  | _, _, _, sts, _, buf, ls =>
    { sts := sts, buf := buf, evs := [], ls := ls, err := none }

/-- Per-group `None` expansion (`_step`, lines 144-147):
`[None]*len(group['params'])` when the whole group entry is absent. -/
def expand (g : ParamGroup) (raw : Option (List (Option Tensor))) :
    List (Option Tensor) :=
  raw.getD (List.replicate g.params.length none)

/-- One iteration of the group loop of `_step` (lines 143-255): expand
absent per-group inputs, compute the combined scale, run the parameter
loop, and in multi-tensor mode issue the one batched kernel call, whose
`step` argument is the leaked loop variable `state['step']`
(a `NameError` when `state` was never assigned). -/
def procGroup (K : KernelOracle) (gi : Nat) (g : ParamGroup)
    (graw opraw : Option (List (Option Tensor))) (gn : Option ℚ)
    (scale : ℚ) (epsMode : Nat) (useMT undo : Bool)
    (sts : List (Option ParamState)) (buf : Nat) (ls : Option Int) : PRes :=
  match combinedScale g.max_grad_norm gn scale with
  | .error e => { sts := sts, buf := buf, evs := [], ls := ls, err := some e }
  | .ok cs =>
    let biasCorr := if g.bias_correction then 1 else 0
    let r := procParams K gi g cs epsMode biasCorr useMT undo
               g.params (expand g graw) (expand g opraw) sts 0 buf ls
    match r.err with
    | some _ => r
    | none =>
      if useMT then
        match r.ls with
        | none => { r with err := some .nameError }
        | some s =>
          { r with buf := if K.adamMT gi s then r.buf + 1 else r.buf,
                   evs := r.evs ++ [.adamMT gi s] }
      else r

/-- Result of the whole group loop. -/
structure GRes where
  stss : List (List (Option ParamState))
  buf : Nat
  evs : List Event
  ls : Option Int
  err : Option StepError
deriving DecidableEq, Repr

/-- The group loop of `_step` (line 143): iterates
`zip(self.param_groups, grads_group, output_params_group, grad_norms)`
(truncating like Python `zip`), threading register, events and the
leaked `state` variable; an exception stops the loop. -/
def procGroups (K : KernelOracle) (scale : ℚ) (epsMode : Nat)
    (useMT undo : Bool) :
    Nat → List ParamGroup → List (Option (List (Option Tensor))) →
    List (Option (List (Option Tensor))) → List (Option ℚ) →
    List (List (Option ParamState)) → Nat → Option Int → GRes
  | gi, g :: gs, gr :: grs, opr :: oprs, n :: ns, sts :: stss, buf, ls =>
    let r := procGroup K gi g gr opr n scale epsMode useMT undo sts buf ls
    match r.err with
    | some e =>
      { stss := r.sts :: stss, buf := r.buf, evs := r.evs, ls := r.ls,
        err := some e }
    | none =>
      let r2 := procGroups K scale epsMode useMT undo
                  (gi + 1) gs grs oprs ns stss r.buf r.ls
      { stss := r.sts :: r2.stss, buf := r2.buf, evs := r.evs ++ r2.evs,
        ls := r2.ls, err := r2.err }
  | _, _, _, _, _, stss, buf, ls =>
    { stss := stss, buf := buf, evs := [], ls := ls, err := none }

/-- Group-shape detection for `grads` / `output_params`
(`_step`, lines 120-138): `None` becomes one `None` per group; a flat
sequence (first element not a list) becomes a single-group wrapper; a
nested sequence is taken per group.  Reading the first element of an
empty sequence raises an `IndexError`. -/
def toGroups (raw : Option RawIn) (ngroups : Nat) :
    Except StepError (List (Option (List (Option Tensor)))) :=
  match raw with
  | none => .ok (List.replicate ngroups none)
  | some (.inl l) =>
    if l.isEmpty then .error .indexError else .ok [some l]
  | some (.inr ls) =>
    if ls.isEmpty then .error .indexError else .ok (ls.map some)

/-- Step counter stored in an optional per-parameter state; a missing
state counts as the `step = 0` it would be initialised with. -/
def stepValO : Option ParamState → Int
  | none => 0
  | some s => s.step

/-- Step counter of parameter `i` in a state-store slice. -/
def getStep (l : List (Option ParamState)) (i : Nat) : Int :=
  stepValO (l[i]?.getD none)

/-- Positional lookup in the two-level state store. -/
def listGet2 (stss : List (List (Option ParamState))) (gi pi : Nat) :
    Option (Option ParamState) :=
  stss[gi]?.bind fun l => l[pi]?

/-- Step counter of parameter `pi` of group `gi` in the two-level
state store. -/
def getStep2 (stss : List (List (Option ParamState))) (gi pi : Nat) : Int :=
  getStep (stss[gi]?.getD []) pi

/-- The gradient the loop would resolve for position `i`, `none` both
when the parameter is skipped and when the zipped iteration never
reaches `i`.  The recursion mirrors the truncating zip of `procParams`. -/
def resolvedAt : List Param → List (Option Tensor) → List (Option Tensor) →
    List (Option ParamState) → Nat → Option Tensor
  | p :: _, g0 :: _, _ :: _, _ :: _, 0 => resolveGrad g0 p
  | _ :: ps, _ :: gs, _ :: os, _ :: sts, i + 1 => resolvedAt ps gs os sts i
  | _, _, _, _, _ => none

/-- The gradient the group loop would resolve for parameter `pi` of
group `gi`, after per-group expansion; `none` when skipped or never
reached.  Mirrors the truncating zip of `procGroups`. -/
def gResolvedAt : List ParamGroup → List (Option (List (Option Tensor))) →
    List (Option (List (Option Tensor))) → List (Option ℚ) →
    List (List (Option ParamState)) → Nat → Nat → Option Tensor
  | g :: _, gr :: _, opr :: _, _ :: _, sts :: _, 0, pi =>
    resolvedAt g.params (expand g gr) (expand g opr) sts pi
  | _ :: gs, _ :: grs, _ :: oprs, _ :: ns, _ :: stss, gi + 1, pi =>
    gResolvedAt gs grs oprs ns stss gi pi
  | _, _, _, _, _, _, _ => none

/-- The group index an event belongs to (`none` for the register
zeroing, which is no kernel interaction). -/
def evGroup : Event → Option Nat
  | .zeroBuf => none
  | .adam gj _ _ => some gj
  | .adamUndo gj _ _ => some gj
  | .adamMT gj _ => some gj

/-- Written from the claim wording, to be compared with the code: the
updated step counter of the last gradient-bearing parameter of a group
(`d` is the counter move, `+1` forward), `none` when no parameter of
the group carries a gradient within the zipped iteration range. -/
def lastNewStep (d : Int) : List Param → List (Option Tensor) →
    List (Option Tensor) → List (Option ParamState) → Option Int
  | p :: ps, g0 :: gs, _ :: os, st :: sts =>
    (lastNewStep d ps gs os sts).orElse fun _ =>
      if (resolveGrad g0 p).isSome then some (stepValO st + d) else none
  | _, _, _, _ => none

/-- Written from the spec wording (4.3), to be compared with the code:
base scale when `max_grad_norm` is not positive, otherwise rescale by
the clip ratio exactly when it exceeds 1. -/
def combinedScaleSpec (max_grad_norm grad_norm scale : ℚ) : ℚ :=
  if max_grad_norm ≤ 0 then scale
  else
    let clip := ((grad_norm / scale) + 1 / 1000000) / max_grad_norm
    if 1 < clip then clip * scale else scale

/-- The Input Normalizer end to end: group-shape detection (`toGroups`)
followed by the per-group `None` expansion the group loop performs,
zipped against the groups exactly as the loop iterates them. -/
def normalizeFull (raw : Option RawIn) (gs : List ParamGroup) :
    Except StepError (List (List (Option Tensor))) :=
  (toGroups raw gs.length).map fun gg => List.zipWith expand gs gg

/-- Result of `_step` / `step`: the (possibly partially mutated)
optimizer, the raised exception or returned value, and the event trace. -/
structure SRes where
  opt : FusedAdam
  ret : Except StepError (Option ℚ)
  evs : List Event
deriving Repr

/-- Models `FusedAdam._step(closure, grads, output_params, scale,
grad_norms, undo)`.  The closure is modelled by the loss value it
returns; `_amp_stash`, when attached, overrides the supplied gradients,
output buffers, scale (times `_amp_scale_adjustment`) and norms. -/
def FusedAdam._step (o : FusedAdam) (K : KernelOracle) (closure : Option ℚ)
    (grads output_params : Option RawIn) (scale : ℚ)
    (grad_norms : Option (List (Option ℚ))) (undo : Bool) : SRes :=
  if undo ∧ ¬o.allow_undo then ⟨o, .error .undoNotAllowed, []⟩
  else if undo ∧ o.use_multi_tensor then ⟨o, .error .undoMultiTensor, []⟩
  else
    let loss : Option ℚ := if undo then none else closure
    let eff : Option RawIn × Option RawIn × ℚ × Option (List (Option ℚ)) :=
      match o.amp_stash with
      | some st =>
        (st.grads, st.output_params, st.scale * o.amp_scale_adjustment,
         st.grad_norms)
      | none => (grads, output_params, scale, grad_norms)
    match toGroups eff.1 o.param_groups.length with
    | .error e => ⟨o, .error e, []⟩
    | .ok gg =>
      match toGroups eff.2.1 o.param_groups.length with
      | .error e => ⟨o, .error e, []⟩
      | .ok og =>
        let gnl := (eff.2.2.2).getD (List.replicate o.param_groups.length none)
        let r := procGroups K eff.2.2.1 o.eps_mode o.use_multi_tensor undo
                   0 o.param_groups gg og gnl o.states o.overflow_buf none
        let o' := { o with states := r.stss, overflow_buf := r.buf }
        match r.err with
        | some e => ⟨o', .error e, r.evs⟩
        | none => ⟨o', .ok (if undo then none else loss), r.evs⟩

/-- Models the public `FusedAdam.step` (lines 259-278): zero the
overflow register, run the forward `_step`, and when undo is allowed
and the non-clearing peek reports overflow, run the reverting `_step`
over the same arguments.  The method body has no `return`, so the
internally computed loss is dropped and `None` is returned. -/
def FusedAdam.step (o : FusedAdam) (K : KernelOracle) (closure : Option ℚ)
    (grads output_params : Option RawIn) (scale : ℚ)
    (grad_norms : Option (List (Option ℚ))) : SRes :=
  let o0 := { o with overflow_buf := 0 }
  let r1 := o0._step K closure grads output_params scale grad_norms false
  match r1.ret with
  | .error e => ⟨r1.opt, .error e, .zeroBuf :: r1.evs⟩
  | .ok _ =>
    if r1.opt.allow_undo ∧ (r1.opt.peek_overflow).1 ≠ 0 then
      let r2 := r1.opt._step K closure grads output_params scale
                  grad_norms true
      match r2.ret with
      | .error e => ⟨r2.opt, .error e, .zeroBuf :: (r1.evs ++ r2.evs)⟩
      | .ok _ => ⟨r2.opt, .ok none, .zeroBuf :: (r1.evs ++ r2.evs)⟩
    else ⟨r1.opt, .ok none, .zeroBuf :: r1.evs⟩

/-! Concrete material shared by witnesses and counterexamples. -/

/-- A concrete kernel oracle used to instantiate theorems: never writes
the overflow register, writes recognisable moment values. -/
def K0 : KernelOracle :=
  { adam := fun a =>
      { p_out := a.p_in, m1_out := { isSparse := false, val := 7 },
        m2_out := { isSparse := false, val := 8 }, overflow := false }
    adamUndo := fun a =>
      { p_out := a.p_in, m1_out := { isSparse := false, val := 9 },
        m2_out := { isSparse := false, val := 10 } }
    adamMT := fun _ _ => false }

/-- A concrete oracle whose forward kernel always reports overflow. -/
def Kov : KernelOracle :=
  { K0 with adam := fun a => { K0.adam a with overflow := true } }

/-- A dense tensor. -/
def tA : Tensor := { isSparse := false, val := 1 }

/-- A dense gradient tensor. -/
def tG : Tensor := { isSparse := false, val := 2 }

/-- A sparse gradient tensor. -/
def tS : Tensor := { isSparse := true, val := 3 }

/-- A parameter with an attached dense gradient. -/
def pG : Param := { data := tA, grad := some tG }

/-- A parameter with no attached gradient. -/
def pN : Param := { data := tA, grad := none }

/-- A concrete one-parameter group. -/
def grpG : ParamGroup :=
  { params := [pG], lr := 1, bias_correction := true, beta1 := 9 / 10,
    beta2 := 999 / 1000, eps := 1 / 100000000, weight_decay := 0,
    max_grad_norm := 0 }

/-- A concrete two-parameter group (dense-gradient parameter first,
gradient-free parameter second). -/
def grpGN : ParamGroup :=
  { params := [pG, pN], lr := 1, bias_correction := true, beta1 := 9 / 10,
    beta2 := 999 / 1000, eps := 1 / 100000000, weight_decay := 0,
    max_grad_norm := 0 }

/-- A concrete group whose only parameter carries no gradient. -/
def grpN : ParamGroup :=
  { params := [pN], lr := 1, bias_correction := true, beta1 := 9 / 10,
    beta2 := 999 / 1000, eps := 1 / 100000000, weight_decay := 0,
    max_grad_norm := 0 }

/-- A concrete optimizer over `grpGN`, per-parameter mode, no undo. -/
def oc1 : FusedAdam :=
  { param_groups := [grpGN], states := [[none, none]], overflow_buf := 0,
    use_multi_tensor := false, allow_undo := false,
    amp_scale_adjustment := 1, eps_mode := 1, amp_stash := none }

/-- A concrete optimizer over `grpGN` with undo enabled. -/
def oc2 : FusedAdam :=
  { param_groups := [grpGN], states := [[none, none]], overflow_buf := 0,
    use_multi_tensor := false, allow_undo := true,
    amp_scale_adjustment := 1, eps_mode := 1, amp_stash := none }


/-! Helper lemmas about one parameter step. -/

theorem stepParam_step (K : KernelOracle) (gi : Nat) (g : ParamGroup)
    (cs : ℚ) (em bc : Nat) (mt u : Bool) (p : Param) (gr : Tensor)
    (op0 : Option Tensor) (st : Option ParamState) (pi buf : Nat) :
    (stepParam K gi g cs em bc mt u p gr op0 st pi buf).1.step
      = stepValO st + (if u then -1 else 1) := by
  unfold stepParam
  cases st <;> cases u <;> cases mt <;> simp [stepValO] <;> omega

theorem stepParam_evs (K : KernelOracle) (gi : Nat) (g : ParamGroup)
    (cs : ℚ) (em bc : Nat) (mt u : Bool) (p : Param) (gr : Tensor)
    (op0 : Option Tensor) (st : Option ParamState) (pi buf : Nat) :
    (stepParam K gi g cs em bc mt u p gr op0 st pi buf).2.2
      = if mt then []
        else if u then [.adamUndo gi pi (stepValO st)]
        else [.adam gi pi (stepValO st + 1)] := by
  unfold stepParam
  cases st <;> cases u <;> cases mt <;> simp [stepValO]

/-! Helper lemmas about the per-parameter loop. -/

theorem procParams_sts_length (K : KernelOracle) (gi : Nat) (g : ParamGroup)
    (cs : ℚ) (em bc : Nat) (mt u : Bool) :
    ∀ (ps : List Param) (gs os : List (Option Tensor))
      (sts : List (Option ParamState)) (pi buf : Nat) (ls : Option Int),
      (procParams K gi g cs em bc mt u ps gs os sts pi buf ls).sts.length
        = sts.length := by
  intro ps
  induction ps with
  | nil => intro gs os sts pi buf ls; simp [procParams]
  | cons p ps ih =>
    intro gs os sts pi buf ls
    cases gs with
    | nil => simp [procParams]
    | cons g0 gs =>
      cases os with
      | nil => simp [procParams]
      | cons o0 os =>
        cases sts with
        | nil => simp [procParams]
        | cons st sts =>
          simp only [procParams]
          cases hr : resolveGrad g0 p with
          | none => simpa using ih gs os sts (pi + 1) buf ls
          | some gr =>
            by_cases hs : gr.isSparse
            · simp [hs]
            · simp [hs, ih]

theorem procParams_unchanged (K : KernelOracle) (gi : Nat) (g : ParamGroup)
    (cs : ℚ) (em bc : Nat) (mt u : Bool) :
    ∀ (ps : List Param) (gs os : List (Option Tensor))
      (sts : List (Option ParamState)) (pi buf : Nat) (ls : Option Int)
      (i : Nat), resolvedAt ps gs os sts i = none →
      (procParams K gi g cs em bc mt u ps gs os sts pi buf ls).sts[i]?
        = sts[i]? := by
  intro ps
  induction ps with
  | nil => intro gs os sts pi buf ls i _; simp [procParams]
  | cons p ps ih =>
    intro gs os sts pi buf ls i hi
    cases gs with
    | nil => simp [procParams]
    | cons g0 gs =>
      cases os with
      | nil => simp [procParams]
      | cons o0 os =>
        cases sts with
        | nil => simp [procParams]
        | cons st sts =>
          simp only [procParams]
          cases hr : resolveGrad g0 p with
          | none =>
            cases i with
            | zero => simp
            | succ i =>
              have hi' : resolvedAt ps gs os sts i = none := by
                simpa [resolvedAt] using hi
              simpa using ih gs os sts (pi + 1) buf ls i hi'
          | some gr =>
            cases i with
            | zero => simp [resolvedAt, hr] at hi
            | succ i =>
              have hi' : resolvedAt ps gs os sts i = none := by
                simpa [resolvedAt] using hi
              by_cases hs : gr.isSparse
              · simp [hs]
              · simpa [hs] using ih gs os sts (pi + 1) _ _ i hi'

theorem procParams_evs_shape (K : KernelOracle) (gi : Nat) (g : ParamGroup)
    (cs : ℚ) (em bc : Nat) (mt u : Bool) :
    ∀ (ps : List Param) (gs os : List (Option Tensor))
      (sts : List (Option ParamState)) (pi buf : Nat) (ls : Option Int)
      (e : Event),
      e ∈ (procParams K gi g cs em bc mt u ps gs os sts pi buf ls).evs →
      ∃ j s, (e = .adam gi j s ∨ e = .adamUndo gi j s) ∧ pi ≤ j ∧
        (resolvedAt ps gs os sts (j - pi)).isSome := by
  intro ps
  induction ps with
  | nil => intro gs os sts pi buf ls e he; simp [procParams] at he
  | cons p ps ih =>
    intro gs os sts pi buf ls e he
    cases gs with
    | nil => simp [procParams] at he
    | cons g0 gs =>
      cases os with
      | nil => simp [procParams] at he
      | cons o0 os =>
        cases sts with
        | nil => simp [procParams] at he
        | cons st sts =>
          simp only [procParams] at he
          cases hr : resolveGrad g0 p with
          | none =>
            rw [hr] at he
            simp only at he
            obtain ⟨j, s, hj, hpi, hres⟩ := ih gs os sts (pi + 1) buf ls e he
            refine ⟨j, s, hj, by omega, ?_⟩
            have : j - pi = (j - (pi + 1)) + 1 := by omega
            rw [this]
            simpa [resolvedAt] using hres
          | some gr =>
            rw [hr] at he
            simp only at he
            by_cases hs : gr.isSparse
            · simp [hs] at he
            · simp only [hs, Bool.false_eq_true, if_false,
                List.mem_append] at he
              rcases he with he | he
              · rw [stepParam_evs] at he
                refine ⟨pi, ?_⟩
                cases mt with
                | true => simp at he
                | false =>
                  cases u with
                  | true =>
                    simp at he
                    exact ⟨stepValO st, Or.inr (by simp [he]), le_refl pi,
                      by simp [resolvedAt, hr]⟩
                  | false =>
                    simp at he
                    exact ⟨stepValO st + 1, Or.inl (by simp [he]),
                      le_refl pi, by simp [resolvedAt, hr]⟩
              · obtain ⟨j, s, hj, hpi, hres⟩ :=
                  ih gs os sts (pi + 1) _ _ e he
                refine ⟨j, s, hj, by omega, ?_⟩
                have : j - pi = (j - (pi + 1)) + 1 := by omega
                rw [this]
                simpa [resolvedAt] using hres

theorem procParams_evs_mt (K : KernelOracle) (gi : Nat) (g : ParamGroup)
    (cs : ℚ) (em bc : Nat) (u : Bool) :
    ∀ (ps : List Param) (gs os : List (Option Tensor))
      (sts : List (Option ParamState)) (pi buf : Nat) (ls : Option Int),
      (procParams K gi g cs em bc true u ps gs os sts pi buf ls).evs = [] := by
  intro ps
  induction ps with
  | nil => intro gs os sts pi buf ls; simp [procParams]
  | cons p ps ih =>
    intro gs os sts pi buf ls
    cases gs with
    | nil => simp [procParams]
    | cons g0 gs =>
      cases os with
      | nil => simp [procParams]
      | cons o0 os =>
        cases sts with
        | nil => simp [procParams]
        | cons st sts =>
          simp only [procParams]
          cases hr : resolveGrad g0 p with
          | none => simpa using ih gs os sts (pi + 1) buf ls
          | some gr =>
            by_cases hs : gr.isSparse
            · simp [hs]
            · simp [hs, stepParam_evs, ih]

theorem procParams_ls (K : KernelOracle) (gi : Nat) (g : ParamGroup)
    (cs : ℚ) (em bc : Nat) (mt u : Bool) :
    ∀ (ps : List Param) (gs os : List (Option Tensor))
      (sts : List (Option ParamState)) (pi buf : Nat) (ls : Option Int),
      (procParams K gi g cs em bc mt u ps gs os sts pi buf ls).err = none →
      (procParams K gi g cs em bc mt u ps gs os sts pi buf ls).ls
        = (lastNewStep (if u then -1 else 1) ps gs os sts).orElse
            fun _ => ls := by
  intro ps
  induction ps with
  | nil => intro gs os sts pi buf ls _; simp [procParams, lastNewStep]
  | cons p ps ih =>
    intro gs os sts pi buf ls herr
    cases gs with
    | nil => simp [procParams, lastNewStep]
    | cons g0 gs =>
      cases os with
      | nil => simp [procParams, lastNewStep]
      | cons o0 os =>
        cases sts with
        | nil => simp [procParams, lastNewStep]
        | cons st sts =>
          simp only [procParams] at herr ⊢
          cases hr : resolveGrad g0 p with
          | none =>
            rw [hr] at herr
            simp only at herr
            rw [ih gs os sts (pi + 1) buf ls herr]
            simp only [lastNewStep, hr, Option.isSome_none, Bool.false_eq_true,
              if_false]
            cases lastNewStep (if u then -1 else 1) ps gs os sts <;>
              simp [Option.orElse]
          | some gr =>
            rw [hr] at herr
            simp only at herr
            by_cases hs : gr.isSparse
            · simp [hs] at herr
            · simp only [hs, Bool.false_eq_true, if_false] at herr ⊢
              rw [ih gs os sts (pi + 1) _ _ herr]
              rw [stepParam_step]
              simp only [lastNewStep, hr, Option.isSome_some, if_true]
              cases lastNewStep (if u then -1 else 1) ps gs os sts <;>
                simp [Option.orElse]

theorem procParams_getStep (K : KernelOracle) (gi : Nat) (g : ParamGroup)
    (cs : ℚ) (em bc : Nat) (mt u : Bool) :
    ∀ (ps : List Param) (gs os : List (Option Tensor))
      (sts : List (Option ParamState)) (pi buf : Nat) (ls : Option Int),
      (procParams K gi g cs em bc mt u ps gs os sts pi buf ls).err = none →
      ∀ i : Nat,
        getStep (procParams K gi g cs em bc mt u ps gs os sts pi buf ls).sts i
          = getStep sts i
            + (if (resolvedAt ps gs os sts i).isSome then
                 (if u then -1 else 1) else 0) := by
  intro ps
  induction ps with
  | nil => intro gs os sts pi buf ls _ i; simp [procParams, resolvedAt]
  | cons p ps ih =>
    intro gs os sts pi buf ls herr i
    cases gs with
    | nil => simp [procParams, resolvedAt]
    | cons g0 gs =>
      cases os with
      | nil => simp [procParams, resolvedAt]
      | cons o0 os =>
        cases sts with
        | nil => simp [procParams, resolvedAt]
        | cons st sts =>
          simp only [procParams] at herr ⊢
          cases hr : resolveGrad g0 p with
          | none =>
            rw [hr] at herr
            simp only at herr
            cases i with
            | zero => simp [getStep, resolvedAt, hr]
            | succ i =>
              have := ih gs os sts (pi + 1) buf ls herr i
              simpa [getStep, resolvedAt] using this
          | some gr =>
            rw [hr] at herr
            simp only at herr
            by_cases hs : gr.isSparse
            · simp [hs] at herr
            · simp only [hs, Bool.false_eq_true, if_false] at herr ⊢
              cases i with
              | zero =>
                simp [getStep, resolvedAt, hr, stepParam_step, stepValO]
              | succ i =>
                have := ih gs os sts (pi + 1) _ _ herr i
                simpa [getStep, resolvedAt] using this

theorem procParams_all_none (K : KernelOracle) (gi : Nat) (g : ParamGroup)
    (cs : ℚ) (em bc : Nat) (mt u : Bool) :
    ∀ (ps : List Param) (gs os : List (Option Tensor))
      (sts : List (Option ParamState)) (pi buf : Nat) (ls : Option Int),
      (∀ i, resolvedAt ps gs os sts i = none) →
      procParams K gi g cs em bc mt u ps gs os sts pi buf ls
        = ⟨sts, buf, [], ls, none⟩ := by
  intro ps
  induction ps with
  | nil => intro gs os sts pi buf ls _; simp [procParams]
  | cons p ps ih =>
    intro gs os sts pi buf ls hall
    cases gs with
    | nil => simp [procParams]
    | cons g0 gs =>
      cases os with
      | nil => simp [procParams]
      | cons o0 os =>
        cases sts with
        | nil => simp [procParams]
        | cons st sts =>
          have h0 : resolveGrad g0 p = none := by
            simpa [resolvedAt] using hall 0
          simp only [procParams, h0]
          rw [ih gs os sts (pi + 1) buf ls fun i => by
            simpa [resolvedAt] using hall (i + 1)]

theorem procParams_sparse (K : KernelOracle) (gi : Nat) (g : ParamGroup)
    (cs : ℚ) (em bc : Nat) (mt u : Bool) :
    ∀ (ps : List Param) (gs os : List (Option Tensor))
      (sts : List (Option ParamState)) (pi buf : Nat) (ls : Option Int)
      (i : Nat) (t : Tensor),
      resolvedAt ps gs os sts i = some t → t.isSparse = true →
      (∀ j, j < i → ∀ v, resolvedAt ps gs os sts j = some v →
        v.isSparse = false) →
      (procParams K gi g cs em bc mt u ps gs os sts pi buf ls).err
          = some .sparseGrad ∧
      (∀ j, i ≤ j →
        (procParams K gi g cs em bc mt u ps gs os sts pi buf ls).sts[j]?
          = sts[j]?) ∧
      (∀ e ∈ (procParams K gi g cs em bc mt u ps gs os sts pi buf ls).evs,
        ∃ j s, (e = .adam gi j s ∨ e = .adamUndo gi j s) ∧ j < pi + i) := by
  intro ps
  induction ps with
  | nil => intro gs os sts pi buf ls i t hi _ _; simp [resolvedAt] at hi
  | cons p ps ih =>
    intro gs os sts pi buf ls i t hi ht hpre
    cases gs with
    | nil => simp [resolvedAt] at hi
    | cons g0 gs =>
      cases os with
      | nil =>
        exfalso
        cases i <;> simp [resolvedAt] at hi
      | cons o0 os =>
        cases sts with
        | nil =>
          exfalso
          cases i <;> simp [resolvedAt] at hi
        | cons st sts =>
          cases i with
          | zero =>
            have h0 : resolveGrad g0 p = some t := by
              simpa [resolvedAt] using hi
            simp only [procParams, h0, ht, if_true]
            exact ⟨by simp, by simp, by intro e he; simp at he⟩
          | succ i =>
            have hi' : resolvedAt ps gs os sts i = some t := by
              simpa [resolvedAt] using hi
            have hpre' : ∀ j, j < i → ∀ v,
                resolvedAt ps gs os sts j = some v → v.isSparse = false :=
              fun j hj v hv => hpre (j + 1) (by omega) v
                (by simpa [resolvedAt] using hv)
            cases hr : resolveGrad g0 p with
            | none =>
              obtain ⟨e1, e2, e3⟩ :=
                ih gs os sts (pi + 1) buf ls i t hi' ht hpre'
              simp only [procParams, hr]
              refine ⟨e1, fun j hj => ?_, fun e he => ?_⟩
              · cases j with
                | zero => omega
                | succ j => simpa using e2 j (by omega)
              · obtain ⟨j, s, hj, hlt⟩ := e3 e (by simpa using he)
                exact ⟨j, s, hj, by omega⟩
            | some gr =>
              have hns : gr.isSparse = false := hpre 0 (by omega) gr
                (by simpa [resolvedAt] using hr)
              obtain ⟨e1, e2, e3⟩ :=
                ih gs os sts (pi + 1) _ _ i t hi' ht hpre'
              simp only [procParams, hr, hns, Bool.false_eq_true, if_false]
              refine ⟨e1, fun j hj => ?_, fun e he => ?_⟩
              · cases j with
                | zero => omega
                | succ j => simpa using e2 j (by omega)
              · simp only [List.mem_append] at he
                rcases he with he | he
                · rw [stepParam_evs] at he
                  cases mt with
                  | true => simp at he
                  | false =>
                    cases u with
                    | true =>
                      simp at he
                      exact ⟨pi, stepValO st, Or.inr (by simp [he]),
                        by omega⟩
                    | false =>
                      simp at he
                      exact ⟨pi, stepValO st + 1, Or.inl (by simp [he]),
                        by omega⟩
                · obtain ⟨j, s, hj, hlt⟩ := e3 e he
                  exact ⟨j, s, hj, by omega⟩

/-! Helper lemmas about one group iteration. -/

theorem procGroup_sts_cases (K : KernelOracle) (gi : Nat) (g : ParamGroup)
    (graw opraw : Option (List (Option Tensor))) (gn : Option ℚ) (scale : ℚ)
    (em : Nat) (mt u : Bool) (sts : List (Option ParamState)) (buf : Nat)
    (ls : Option Int) :
    (procGroup K gi g graw opraw gn scale em mt u sts buf ls).sts = sts ∨
    ∃ cs, combinedScale g.max_grad_norm gn scale = .ok cs ∧
      (procGroup K gi g graw opraw gn scale em mt u sts buf ls).sts
        = (procParams K gi g cs em (if g.bias_correction then 1 else 0) mt u
             g.params (expand g graw) (expand g opraw) sts 0 buf ls).sts := by
  unfold procGroup
  cases hcs : combinedScale g.max_grad_norm gn scale with
  | error e => left; rfl
  | ok cs =>
    right
    refine ⟨cs, rfl, ?_⟩
    simp only
    cases herr : (procParams K gi g cs em (if g.bias_correction then 1 else 0)
        mt u g.params (expand g graw) (expand g opraw) sts 0 buf ls).err with
    | some e => rfl
    | none =>
      cases mt with
      | false => rfl
      | true =>
        cases hls : (procParams K gi g cs em
            (if g.bias_correction then 1 else 0) true u g.params
            (expand g graw) (expand g opraw) sts 0 buf ls).ls with
        | none => rfl
        | some s => rfl

theorem procGroup_sts_length (K : KernelOracle) (gi : Nat) (g : ParamGroup)
    (graw opraw : Option (List (Option Tensor))) (gn : Option ℚ) (scale : ℚ)
    (em : Nat) (mt u : Bool) (sts : List (Option ParamState)) (buf : Nat)
    (ls : Option Int) :
    (procGroup K gi g graw opraw gn scale em mt u sts buf ls).sts.length
      = sts.length := by
  rcases procGroup_sts_cases K gi g graw opraw gn scale em mt u sts buf ls
    with h | ⟨cs, _, h⟩ <;> rw [h]
  exact procParams_sts_length K gi g cs em _ mt u g.params _ _ sts 0 buf ls

theorem procGroup_unchanged (K : KernelOracle) (gi : Nat) (g : ParamGroup)
    (graw opraw : Option (List (Option Tensor))) (gn : Option ℚ) (scale : ℚ)
    (em : Nat) (mt u : Bool) (sts : List (Option ParamState)) (buf : Nat)
    (ls : Option Int) (pi : Nat)
    (h : resolvedAt g.params (expand g graw) (expand g opraw) sts pi
           = none) :
    (procGroup K gi g graw opraw gn scale em mt u sts buf ls).sts[pi]?
      = sts[pi]? := by
  rcases procGroup_sts_cases K gi g graw opraw gn scale em mt u sts buf ls
    with hc | ⟨cs, _, hc⟩ <;> rw [hc]
  exact procParams_unchanged K gi g cs em _ mt u g.params _ _ sts 0 buf ls
    pi h

theorem procGroup_ok (K : KernelOracle) (gi : Nat) (g : ParamGroup)
    (graw opraw : Option (List (Option Tensor))) (gn : Option ℚ) (scale : ℚ)
    (em : Nat) (mt u : Bool) (sts : List (Option ParamState)) (buf : Nat)
    (ls : Option Int)
    (hok : (procGroup K gi g graw opraw gn scale em mt u sts buf ls).err
             = none) :
    ∃ cs, combinedScale g.max_grad_norm gn scale = .ok cs ∧
      (procGroup K gi g graw opraw gn scale em mt u sts buf ls).sts
        = (procParams K gi g cs em (if g.bias_correction then 1 else 0) mt u
             g.params (expand g graw) (expand g opraw) sts 0 buf ls).sts ∧
      (procParams K gi g cs em (if g.bias_correction then 1 else 0) mt u
         g.params (expand g graw) (expand g opraw) sts 0 buf ls).err
        = none := by
  unfold procGroup at hok ⊢
  cases hcs : combinedScale g.max_grad_norm gn scale with
  | error e => rw [hcs] at hok; simp at hok
  | ok cs =>
    rw [hcs] at hok
    refine ⟨cs, rfl, ?_⟩
    dsimp only at hok ⊢
    cases herr : (procParams K gi g cs em (if g.bias_correction then 1 else 0)
        mt u g.params (expand g graw) (expand g opraw) sts 0 buf ls).err with
    | some e =>
      rw [herr] at hok
      dsimp only at hok
      rw [herr] at hok
      simp at hok
    | none =>
      rw [herr] at hok
      dsimp only at hok ⊢
      cases mt with
      | false => exact ⟨rfl, rfl⟩
      | true =>
        cases hls : (procParams K gi g cs em
            (if g.bias_correction then 1 else 0) true u g.params
            (expand g graw) (expand g opraw) sts 0 buf ls).ls with
        | none => rw [hls] at hok; simp at hok
        | some s => exact ⟨rfl, rfl⟩

theorem procParams_evs_shape0 (K : KernelOracle) (gi : Nat) (g : ParamGroup)
    (cs : ℚ) (em bc : Nat) (mt u : Bool) (ps : List Param)
    (gs os : List (Option Tensor)) (sts : List (Option ParamState))
    (buf : Nat) (ls : Option Int) :
    ∀ e ∈ (procParams K gi g cs em bc mt u ps gs os sts 0 buf ls).evs,
      evGroup e = some gi ∧
      ∀ gj j s, (e = .adam gj j s ∨ e = .adamUndo gj j s) →
        gj = gi ∧ (resolvedAt ps gs os sts j).isSome := by
  intro e he
  obtain ⟨j, s, hj, -, hres⟩ :=
    procParams_evs_shape K gi g cs em bc mt u ps gs os sts 0 buf ls e he
  rw [Nat.sub_zero] at hres
  constructor
  · rcases hj with hj | hj <;> simp [hj, evGroup]
  · intro gj j' s' hj'
    rcases hj with hj | hj <;> rcases hj' with hj' | hj' <;>
      rw [hj] at hj' <;> first
        | (cases hj'; exact ⟨rfl, hres⟩)
        | exact Event.noConfusion hj'

theorem procGroup_evs (K : KernelOracle) (gi : Nat) (g : ParamGroup)
    (graw opraw : Option (List (Option Tensor))) (gn : Option ℚ) (scale : ℚ)
    (em : Nat) (mt u : Bool) (sts : List (Option ParamState)) (buf : Nat)
    (ls : Option Int) :
    ∀ e ∈ (procGroup K gi g graw opraw gn scale em mt u sts buf ls).evs,
      evGroup e = some gi ∧
      ∀ gj j s, (e = .adam gj j s ∨ e = .adamUndo gj j s) →
        gj = gi ∧ (resolvedAt g.params (expand g graw) (expand g opraw) sts
                     j).isSome := by
  intro e he
  unfold procGroup at he
  rcases hcs : combinedScale g.max_grad_norm gn scale with e' | cs <;>
    rw [hcs] at he
  · simp at he
  · dsimp only at he
    cases herr : (procParams K gi g cs em (if g.bias_correction then 1 else 0)
        mt u g.params (expand g graw) (expand g opraw) sts 0 buf ls).err with
    | some e' =>
      rw [herr] at he
      exact procParams_evs_shape0 K gi g cs em _ mt u g.params _ _ sts buf ls
        e he
    | none =>
      rw [herr] at he
      dsimp only at he
      cases mt with
      | false =>
        exact procParams_evs_shape0 K gi g cs em _ false u g.params _ _ sts
          buf ls e he
      | true =>
        cases hls : (procParams K gi g cs em
            (if g.bias_correction then 1 else 0) true u g.params
            (expand g graw) (expand g opraw) sts 0 buf ls).ls with
        | none =>
          rw [hls] at he
          exact procParams_evs_shape0 K gi g cs em _ true u g.params _ _ sts
            buf ls e he
        | some s =>
          rw [hls] at he
          simp [procParams_evs_mt] at he
          subst he
          refine ⟨rfl, ?_⟩
          intro gj j s' hj'
          rcases hj' with hj' | hj' <;> exact Event.noConfusion hj'

/-! Helper lemmas about the group loop. -/

theorem procGroups_shape (K : KernelOracle) (scale : ℚ) (em : Nat)
    (mt u : Bool) :
    ∀ (gs : List ParamGroup) (grs oprs : List (Option (List (Option Tensor))))
      (ns : List (Option ℚ)) (stss : List (List (Option ParamState)))
      (buf : Nat) (ls : Option Int) (gi0 gi' : Nat),
      ((procGroups K scale em mt u gi0 gs grs oprs ns stss buf ls).stss[gi']?
        ).map List.length = (stss[gi']?).map List.length := by
  intro gs
  induction gs with
  | nil => intro grs oprs ns stss buf ls gi0 gi'; simp [procGroups]
  | cons g gs ih =>
    intro grs oprs ns stss buf ls gi0 gi'
    cases grs with
    | nil => simp [procGroups]
    | cons gr grs =>
      cases oprs with
      | nil => simp [procGroups]
      | cons opr oprs =>
        cases ns with
        | nil => simp [procGroups]
        | cons n ns =>
          cases stss with
          | nil => simp [procGroups]
          | cons sts stss =>
            simp only [procGroups]
            cases herr : (procGroup K gi0 g gr opr n scale em mt u sts buf
                ls).err with
            | some e =>
              cases gi' with
              | zero => simp [procGroup_sts_length]
              | succ gi' => simp
            | none =>
              cases gi' with
              | zero => simp [procGroup_sts_length]
              | succ gi' => simpa using ih grs oprs ns stss _ _ (gi0 + 1) gi'

theorem procGroups_unchanged (K : KernelOracle) (scale : ℚ) (em : Nat)
    (mt u : Bool) :
    ∀ (gs : List ParamGroup) (grs oprs : List (Option (List (Option Tensor))))
      (ns : List (Option ℚ)) (stss : List (List (Option ParamState)))
      (buf : Nat) (ls : Option Int) (gi0 gi' pi : Nat),
      gResolvedAt gs grs oprs ns stss gi' pi = none →
      listGet2 (procGroups K scale em mt u gi0 gs grs oprs ns stss buf
          ls).stss gi' pi = listGet2 stss gi' pi := by
  intro gs
  induction gs with
  | nil => intro grs oprs ns stss buf ls gi0 gi' pi _; simp [procGroups]
  | cons g gs ih =>
    intro grs oprs ns stss buf ls gi0 gi' pi hres
    cases grs with
    | nil => simp [procGroups]
    | cons gr grs =>
      cases oprs with
      | nil => simp [procGroups]
      | cons opr oprs =>
        cases ns with
        | nil => simp [procGroups]
        | cons n ns =>
          cases stss with
          | nil => simp [procGroups]
          | cons sts stss =>
            simp only [procGroups]
            cases herr : (procGroup K gi0 g gr opr n scale em mt u sts buf
                ls).err with
            | some e =>
              cases gi' with
              | zero =>
                have h0 : resolvedAt g.params (expand g gr) (expand g opr)
                    sts pi = none := by simpa [gResolvedAt] using hres
                simpa [listGet2] using procGroup_unchanged K gi0 g gr opr n
                  scale em mt u sts buf ls pi h0
              | succ gi' => simp [listGet2]
            | none =>
              cases gi' with
              | zero =>
                have h0 : resolvedAt g.params (expand g gr) (expand g opr)
                    sts pi = none := by simpa [gResolvedAt] using hres
                simpa [listGet2] using procGroup_unchanged K gi0 g gr opr n
                  scale em mt u sts buf ls pi h0
              | succ gi' =>
                have hres' : gResolvedAt gs grs oprs ns stss gi' pi = none :=
                  by simpa [gResolvedAt] using hres
                simpa [listGet2] using
                  ih grs oprs ns stss _ _ (gi0 + 1) gi' pi hres'

theorem procGroups_evs (K : KernelOracle) (scale : ℚ) (em : Nat)
    (mt u : Bool) :
    ∀ (gs : List ParamGroup) (grs oprs : List (Option (List (Option Tensor))))
      (ns : List (Option ℚ)) (stss : List (List (Option ParamState)))
      (buf : Nat) (ls : Option Int) (gi0 : Nat),
      ∀ e ∈ (procGroups K scale em mt u gi0 gs grs oprs ns stss buf ls).evs,
        ∃ gj, evGroup e = some gj ∧ gi0 ≤ gj ∧ gj < gi0 + gs.length ∧
          ∀ j s, (e = .adam gj j s ∨ e = .adamUndo gj j s) →
            (gResolvedAt gs grs oprs ns stss (gj - gi0) j).isSome := by
  intro gs
  induction gs with
  | nil => intro grs oprs ns stss buf ls gi0 e he; simp [procGroups] at he
  | cons g gs ih =>
    intro grs oprs ns stss buf ls gi0 e he
    cases grs with
    | nil => simp [procGroups] at he
    | cons gr grs =>
      cases oprs with
      | nil => simp [procGroups] at he
      | cons opr oprs =>
        cases ns with
        | nil => simp [procGroups] at he
        | cons n ns =>
          cases stss with
          | nil => simp [procGroups] at he
          | cons sts stss =>
            simp only [procGroups] at he
            have hgrp : ∀ e ∈ (procGroup K gi0 g gr opr n scale em mt u sts
                buf ls).evs, ∃ gj, evGroup e = some gj ∧ gi0 ≤ gj ∧
                  gj < gi0 + (g :: gs).length ∧
                  ∀ j s, (e = .adam gj j s ∨ e = .adamUndo gj j s) →
                    (gResolvedAt (g :: gs) (gr :: grs) (opr :: oprs) (n :: ns)
                      (sts :: stss) (gj - gi0) j).isSome := by
              intro e' he'
              obtain ⟨h1, h2⟩ := procGroup_evs K gi0 g gr opr n scale em mt u
                sts buf ls e' he'
              refine ⟨gi0, h1, le_refl gi0, by simp, ?_⟩
              intro j s hj
              obtain ⟨-, hres⟩ := h2 gi0 j s hj
              simpa [gResolvedAt] using hres
            cases herr : (procGroup K gi0 g gr opr n scale em mt u sts buf
                ls).err with
            | some e' =>
              rw [herr] at he
              exact hgrp e (by simpa using he)
            | none =>
              rw [herr] at he
              dsimp only at he
              rw [List.mem_append] at he
              rcases he with he | he
              · exact hgrp e he
              · obtain ⟨gj, h1, h2, h3, h4⟩ :=
                  ih grs oprs ns stss _ _ (gi0 + 1) e he
                refine ⟨gj, h1, by omega, by simp; omega, ?_⟩
                intro j s hj
                have := h4 j s hj
                have harith : gj - gi0 = (gj - (gi0 + 1)) + 1 := by omega
                rw [harith]
                simpa [gResolvedAt] using this

theorem procGroups_getStep (K : KernelOracle) (scale : ℚ) (em : Nat)
    (mt u : Bool) :
    ∀ (gs : List ParamGroup) (grs oprs : List (Option (List (Option Tensor))))
      (ns : List (Option ℚ)) (stss : List (List (Option ParamState)))
      (buf : Nat) (ls : Option Int) (gi0 : Nat),
      (procGroups K scale em mt u gi0 gs grs oprs ns stss buf ls).err = none →
      ∀ gi' pi,
        getStep2 (procGroups K scale em mt u gi0 gs grs oprs ns stss buf
            ls).stss gi' pi
          = getStep2 stss gi' pi
            + (if (gResolvedAt gs grs oprs ns stss gi' pi).isSome then
                 (if u then -1 else 1) else 0) := by
  intro gs
  induction gs with
  | nil =>
    intro grs oprs ns stss buf ls gi0 _ gi' pi
    simp [procGroups, gResolvedAt]
  | cons g gs ih =>
    intro grs oprs ns stss buf ls gi0 hok gi' pi
    cases grs with
    | nil => simp [procGroups, gResolvedAt]
    | cons gr grs =>
      cases oprs with
      | nil => simp [procGroups, gResolvedAt]
      | cons opr oprs =>
        cases ns with
        | nil => simp [procGroups, gResolvedAt]
        | cons n ns =>
          cases stss with
          | nil => simp [procGroups, gResolvedAt]
          | cons sts stss =>
            simp only [procGroups] at hok ⊢
            cases herr : (procGroup K gi0 g gr opr n scale em mt u sts buf
                ls).err with
            | some e => rw [herr] at hok; simp at hok
            | none =>
              rw [herr] at hok
              dsimp only at hok ⊢
              obtain ⟨cs, -, hsts, herr2⟩ := procGroup_ok K gi0 g gr opr n
                scale em mt u sts buf ls herr
              cases gi' with
              | zero =>
                simp only [getStep2, gResolvedAt, List.getElem?_cons_zero,
                  Option.getD_some]
                rw [hsts]
                exact procParams_getStep K gi0 g cs em _ mt u g.params _ _
                  sts 0 buf ls herr2 pi
              | succ gi' =>
                simp only [getStep2, gResolvedAt, List.getElem?_cons_succ]
                exact ih grs oprs ns stss _ _ (gi0 + 1) hok gi' pi

theorem procGroups_append (K : KernelOracle) (scale : ℚ) (em : Nat)
    (mt u : Bool) :
    ∀ (gs1 : List ParamGroup)
      (grs1 oprs1 : List (Option (List (Option Tensor))))
      (ns1 : List (Option ℚ)) (stss1 : List (List (Option ParamState))),
      grs1.length = gs1.length → oprs1.length = gs1.length →
      ns1.length = gs1.length → stss1.length = gs1.length →
      ∀ (gs2 : List ParamGroup)
        (grs2 oprs2 : List (Option (List (Option Tensor))))
        (ns2 : List (Option ℚ)) (stss2 : List (List (Option ParamState)))
        (gi0 buf : Nat) (ls : Option Int),
      procGroups K scale em mt u gi0 (gs1 ++ gs2) (grs1 ++ grs2)
          (oprs1 ++ oprs2) (ns1 ++ ns2) (stss1 ++ stss2) buf ls
        = (match (procGroups K scale em mt u gi0 gs1 grs1 oprs1 ns1 stss1 buf
              ls).err with
           | some e =>
             { stss := (procGroups K scale em mt u gi0 gs1 grs1 oprs1 ns1
                   stss1 buf ls).stss ++ stss2,
               buf := (procGroups K scale em mt u gi0 gs1 grs1 oprs1 ns1
                   stss1 buf ls).buf,
               evs := (procGroups K scale em mt u gi0 gs1 grs1 oprs1 ns1
                   stss1 buf ls).evs,
               ls := (procGroups K scale em mt u gi0 gs1 grs1 oprs1 ns1
                   stss1 buf ls).ls,
               err := some e }
           | none =>
             { stss := (procGroups K scale em mt u gi0 gs1 grs1 oprs1 ns1
                   stss1 buf ls).stss
                 ++ (procGroups K scale em mt u (gi0 + gs1.length) gs2 grs2
                       oprs2 ns2 stss2
                       (procGroups K scale em mt u gi0 gs1 grs1 oprs1 ns1
                         stss1 buf ls).buf
                       (procGroups K scale em mt u gi0 gs1 grs1 oprs1 ns1
                         stss1 buf ls).ls).stss,
               buf := (procGroups K scale em mt u (gi0 + gs1.length) gs2 grs2
                   oprs2 ns2 stss2
                   (procGroups K scale em mt u gi0 gs1 grs1 oprs1 ns1 stss1
                     buf ls).buf
                   (procGroups K scale em mt u gi0 gs1 grs1 oprs1 ns1 stss1
                     buf ls).ls).buf,
               evs := (procGroups K scale em mt u gi0 gs1 grs1 oprs1 ns1
                   stss1 buf ls).evs
                 ++ (procGroups K scale em mt u (gi0 + gs1.length) gs2 grs2
                       oprs2 ns2 stss2
                       (procGroups K scale em mt u gi0 gs1 grs1 oprs1 ns1
                         stss1 buf ls).buf
                       (procGroups K scale em mt u gi0 gs1 grs1 oprs1 ns1
                         stss1 buf ls).ls).evs,
               ls := (procGroups K scale em mt u (gi0 + gs1.length) gs2 grs2
                   oprs2 ns2 stss2
                   (procGroups K scale em mt u gi0 gs1 grs1 oprs1 ns1 stss1
                     buf ls).buf
                   (procGroups K scale em mt u gi0 gs1 grs1 oprs1 ns1 stss1
                     buf ls).ls).ls,
               err := (procGroups K scale em mt u (gi0 + gs1.length) gs2 grs2
                   oprs2 ns2 stss2
                   (procGroups K scale em mt u gi0 gs1 grs1 oprs1 ns1 stss1
                     buf ls).buf
                   (procGroups K scale em mt u gi0 gs1 grs1 oprs1 ns1 stss1
                     buf ls).ls).err }) := by
  intro gs1
  induction gs1 with
  | nil =>
    intro grs1 oprs1 ns1 stss1 h1 h2 h3 h4
    intro gs2 grs2 oprs2 ns2 stss2 gi0 buf ls
    simp only [List.length_nil, List.length_eq_zero] at h1 h2 h3 h4
    subst h1; subst h2; subst h3; subst h4
    simp [procGroups]
  | cons g gs1 ih =>
    intro grs1 oprs1 ns1 stss1 h1 h2 h3 h4
    intro gs2 grs2 oprs2 ns2 stss2 gi0 buf ls
    cases grs1 with
    | nil => simp at h1
    | cons gr grs1 =>
      cases oprs1 with
      | nil => simp at h2
      | cons opr oprs1 =>
        cases ns1 with
        | nil => simp at h3
        | cons n ns1 =>
          cases stss1 with
          | nil => simp at h4
          | cons sts stss1 =>
            simp only [List.length_cons, Nat.succ.injEq] at h1 h2 h3 h4
            simp only [List.cons_append, procGroups]
            cases herr : (procGroup K gi0 g gr opr n scale em mt u sts buf
                ls).err with
            | some e => simp
            | none =>
              dsimp only
              simp only [List.append_eq]
              rw [ih grs1 oprs1 ns1 stss1 h1 h2 h3 h4 gs2 grs2 oprs2 ns2
                stss2 (gi0 + 1) _ _]
              cases herr2 : (procGroups K scale em mt u (gi0 + 1) gs1 grs1
                  oprs1 ns1 stss1
                  (procGroup K gi0 g gr opr n scale em mt u sts buf ls).buf
                  (procGroup K gi0 g gr opr n scale em mt u sts buf
                    ls).ls).err with
              | some e =>
                dsimp only
                simp [List.cons_append, List.append_assoc]
              | none =>
                dsimp only
                have harith : gi0 + 1 + gs1.length
                    = gi0 + (gs1.length + 1) := by omega
                rw [harith]
                simp [List.cons_append, List.append_assoc]

/-! Bridge lemmas unfolding `_step`. -/

theorem stepFwd_eq (o : FusedAdam) (K : KernelOracle) (c : Option ℚ)
    (grads outs : Option RawIn) (scale : ℚ) (gn : Option (List (Option ℚ)))
    (gg og : List (Option (List (Option Tensor))))
    (hst : o.amp_stash = none)
    (hg : toGroups grads o.param_groups.length = .ok gg)
    (ho : toGroups outs o.param_groups.length = .ok og) :
    o._step K c grads outs scale gn false
      = ⟨{ o with
             states := (procGroups K scale o.eps_mode o.use_multi_tensor
               false 0 o.param_groups gg og
               (gn.getD (List.replicate o.param_groups.length none))
               o.states o.overflow_buf none).stss,
             overflow_buf := (procGroups K scale o.eps_mode o.use_multi_tensor
               false 0 o.param_groups gg og
               (gn.getD (List.replicate o.param_groups.length none))
               o.states o.overflow_buf none).buf },
          match (procGroups K scale o.eps_mode o.use_multi_tensor false 0
              o.param_groups gg og
              (gn.getD (List.replicate o.param_groups.length none))
              o.states o.overflow_buf none).err with
          | some e => .error e
          | none => .ok c,
          (procGroups K scale o.eps_mode o.use_multi_tensor false 0
            o.param_groups gg og
            (gn.getD (List.replicate o.param_groups.length none))
            o.states o.overflow_buf none).evs⟩ := by
  unfold FusedAdam._step
  simp only [hst, hg, ho, Bool.false_eq_true, false_and, if_false]
  cases hre : (procGroups K scale o.eps_mode o.use_multi_tensor false 0
      o.param_groups gg og
      (gn.getD (List.replicate o.param_groups.length none))
      o.states o.overflow_buf none).err with
  | some e => rfl
  | none => rfl

theorem stepUndo_eq (o : FusedAdam) (K : KernelOracle) (c : Option ℚ)
    (grads outs : Option RawIn) (scale : ℚ) (gn : Option (List (Option ℚ)))
    (gg og : List (Option (List (Option Tensor))))
    (hau : o.allow_undo = true) (hmt : o.use_multi_tensor = false)
    (hst : o.amp_stash = none)
    (hg : toGroups grads o.param_groups.length = .ok gg)
    (ho : toGroups outs o.param_groups.length = .ok og) :
    o._step K c grads outs scale gn true
      = ⟨{ o with
             states := (procGroups K scale o.eps_mode o.use_multi_tensor
               true 0 o.param_groups gg og
               (gn.getD (List.replicate o.param_groups.length none))
               o.states o.overflow_buf none).stss,
             overflow_buf := (procGroups K scale o.eps_mode o.use_multi_tensor
               true 0 o.param_groups gg og
               (gn.getD (List.replicate o.param_groups.length none))
               o.states o.overflow_buf none).buf },
          match (procGroups K scale o.eps_mode o.use_multi_tensor true 0
              o.param_groups gg og
              (gn.getD (List.replicate o.param_groups.length none))
              o.states o.overflow_buf none).err with
          | some e => .error e
          | none => .ok none,
          (procGroups K scale o.eps_mode o.use_multi_tensor true 0
            o.param_groups gg og
            (gn.getD (List.replicate o.param_groups.length none))
            o.states o.overflow_buf none).evs⟩ := by
  unfold FusedAdam._step
  rw [if_neg (by simp [hau]), if_neg (by simp [hmt])]
  simp only [hst, hg, ho]
  cases hre : (procGroups K scale o.eps_mode o.use_multi_tensor true 0
      o.param_groups gg og
      (gn.getD (List.replicate o.param_groups.length none))
      o.states o.overflow_buf none).err with
  | some e => rfl
  | none => rfl

theorem stepInner_no_zeroBuf (o : FusedAdam) (K : KernelOracle)
    (c : Option ℚ) (grads outs : Option RawIn) (scale : ℚ)
    (gn : Option (List (Option ℚ))) (undo : Bool) :
    Event.zeroBuf ∉ (o._step K c grads outs scale gn undo).evs := by
  intro hmem
  unfold FusedAdam._step at hmem
  split at hmem
  · simp at hmem
  · split at hmem
    · simp at hmem
    · dsimp only at hmem
      split at hmem
      · simp at hmem
      · split at hmem
        · simp at hmem
        · split at hmem <;>
          · dsimp only at hmem
            obtain ⟨gj, hgj, -⟩ := procGroups_evs _ _ _ _ _ _ _ _ _ _ _ _ _
              Event.zeroBuf hmem
            simp [evGroup] at hgj

/-! C2. -/

/-- C2: for every parameter group, the combined scale of `_step`
(lines 149-155) equals the spec formula exactly: the base scale when
`max_grad_norm` is not positive, otherwise, with
`clip = ((grad_norm / base_scale) + 1e-6) / max_grad_norm`,
`clip * base_scale` when `clip > 1` and `base_scale` when `clip ≤ 1`. -/
theorem C2_combined_scale (mgn n scale : ℚ) :
    combinedScale mgn (some n) scale
      = .ok (combinedScaleSpec mgn n scale) := by
  unfold combinedScale combinedScaleSpec
  rcases le_or_lt mgn 0 with h | h
  · rw [if_neg (not_lt.mpr h), if_pos h]
  · rw [if_pos h, if_neg (not_le.mpr h)]
    dsimp only
    split <;> rfl

/-! C6. -/

/-- C6 counterexample: constructing with both batched (multi-tensor)
mode and undo requested does not fail when the batched launcher is
unavailable (`multi_tensor_applier.available = False`): the batched
request is silently dropped and construction succeeds with undo
active. -/
theorem C6_counterexample :
    FusedAdam.construct [] 1 true 1 1 1 false 0 0 false true 1 true false
      = .ok { param_groups := [], states := [], overflow_buf := 0,
              use_multi_tensor := false, allow_undo := true,
              amp_scale_adjustment := 1, eps_mode := 1,
              amp_stash := none } := by rfl

/-- C6 (amended): when the batched launcher is available, requesting
both batched mode and undo makes construction fail with the
configuration error; and no successfully constructed instance ever has
batched mode and undo both active. -/
theorem C6_amended :
    (∀ (pgs : List (List Param)) (lr : ℚ) (bc : Bool) (b1 b2 eps : ℚ)
       (eis : Bool) (wd mgn : ℚ) (asa : ℚ),
       FusedAdam.construct pgs lr bc b1 b2 eps eis wd mgn false true asa
           true true
         = .error .undoWithMultiTensor) ∧
    (∀ (pgs : List (List Param)) (lr : ℚ) (bc : Bool) (b1 b2 eps : ℚ)
       (eis : Bool) (wd mgn : ℚ) (ams mtq : Bool) (asa : ℚ)
       (au mtav : Bool) (o : FusedAdam),
       FusedAdam.construct pgs lr bc b1 b2 eps eis wd mgn ams mtq asa au
           mtav = .ok o →
       ¬(o.use_multi_tensor = true ∧ o.allow_undo = true)) := by
  constructor
  · intro pgs lr bc b1 b2 eps eis wd mgn asa
    rfl
  · intro pgs lr bc b1 b2 eps eis wd mgn ams mtq asa au mtav o h hcontra
    unfold FusedAdam.construct at h
    dsimp only at h
    by_cases hams : ams = true
    · rw [if_pos hams] at h
      exact Except.noConfusion h
    · rw [if_neg hams] at h
      by_cases hcfg : ((mtq && mtav) && au) = true
      · rw [if_pos hcfg] at h
        exact Except.noConfusion h
      · rw [if_neg hcfg] at h
        simp only [Except.ok.injEq] at h
        subst h
        refine hcfg ?_
        rw [Bool.and_eq_true]
        exact ⟨hcontra.1, hcontra.2⟩

/-- C6 witness: the amended theorem at concrete inputs. -/
theorem C6_amended_witness :
    FusedAdam.construct [] 1 true 1 1 1 false 0 0 false true 1 true true
      = .error .undoWithMultiTensor ∧
    ¬(({ param_groups := [], states := [], overflow_buf := 0,
         use_multi_tensor := true, allow_undo := false,
         amp_scale_adjustment := 1, eps_mode := 1,
         amp_stash := none } : FusedAdam).use_multi_tensor = true ∧
      ({ param_groups := [], states := [], overflow_buf := 0,
         use_multi_tensor := true, allow_undo := false,
         amp_scale_adjustment := 1, eps_mode := 1,
         amp_stash := none } : FusedAdam).allow_undo = true) :=
  ⟨C6_amended.1 [] 1 true 1 1 1 false 0 0 1,
   C6_amended.2 [] 1 true 1 1 1 false 0 0 false true 1 false true _
     (by rfl)⟩

/-! C4. -/

/-- C4: on a freshly constructed optimizer the overflow accessors report
no overflow; `peek_overflow` never mutates the register (repeated calls
return the same value); `has_overflow` returns the register's current
value and zeroes it, so an immediately following `has_overflow` reports
no overflow. -/
theorem C4_overflow_accessors (pgs : List (List Param)) (lr : ℚ)
    (bc : Bool) (b1 b2 eps : ℚ) (eis : Bool) (wd mgn : ℚ) (ams mtq : Bool)
    (asa : ℚ) (au mtav : Bool) (o : FusedAdam)
    (h : FusedAdam.construct pgs lr bc b1 b2 eps eis wd mgn ams mtq asa au
           mtav = .ok o) :
    (o.peek_overflow).1 = 0 ∧ (o.has_overflow).1 = 0 ∧
    (∀ o' : FusedAdam, (o'.peek_overflow).2 = o' ∧
      (o'.peek_overflow).1 = o'.overflow_buf ∧
      ((o'.peek_overflow).2.peek_overflow).1 = (o'.peek_overflow).1) ∧
    (∀ o' : FusedAdam, (o'.has_overflow).1 = o'.overflow_buf ∧
      ((o'.has_overflow).2).overflow_buf = 0 ∧
      ((o'.has_overflow).2.has_overflow).1 = 0) := by
  have hbuf : o.overflow_buf = 0 := by
    unfold FusedAdam.construct at h
    dsimp only at h
    by_cases hams : ams = true
    · rw [if_pos hams] at h
      exact Except.noConfusion h
    · rw [if_neg hams] at h
      by_cases hcfg : ((mtq && mtav) && au) = true
      · rw [if_pos hcfg] at h
        exact Except.noConfusion h
      · rw [if_neg hcfg] at h
        simp only [Except.ok.injEq] at h
        subst h
        rfl
  exact ⟨hbuf, hbuf, fun o' => ⟨rfl, rfl, rfl⟩, fun o' => ⟨rfl, rfl, rfl⟩⟩

/-- C4 witness: the theorem applied to a concretely constructed
optimizer. -/
theorem C4_overflow_accessors_witness :
    let oc : FusedAdam :=
      { param_groups := [grpG], states := [[none]], overflow_buf := 0,
        use_multi_tensor := false, allow_undo := false,
        amp_scale_adjustment := 1, eps_mode := 1, amp_stash := none }
    (oc.peek_overflow).1 = 0 ∧ (oc.has_overflow).1 = 0 ∧
    (∀ o' : FusedAdam, (o'.peek_overflow).2 = o' ∧
      (o'.peek_overflow).1 = o'.overflow_buf ∧
      ((o'.peek_overflow).2.peek_overflow).1 = (o'.peek_overflow).1) ∧
    (∀ o' : FusedAdam, (o'.has_overflow).1 = o'.overflow_buf ∧
      ((o'.has_overflow).2).overflow_buf = 0 ∧
      ((o'.has_overflow).2.has_overflow).1 = 0) :=
  C4_overflow_accessors [[pG]] 1 true (9 / 10) (999 / 1000) (1 / 100000000)
    false 0 0 false false 1 false false _ (by rfl)

/-! C8. -/

/-- C8: the public `step` never returns a loss value under any path
(the method body falls off the end, returning `None`), even though the
forward `_step` it calls does compute and return the closure's loss
internally. -/
theorem C8_step_returns_none (o : FusedAdam) (K : KernelOracle)
    (c : Option ℚ) (grads outs : Option RawIn) (scale : ℚ)
    (gn : Option (List (Option ℚ))) :
    (∀ v : ℚ, (o.step K c grads outs scale gn).ret ≠ .ok (some v)) ∧
    (∀ l, (o._step K c grads outs scale gn false).ret = .ok l → l = c) := by
  constructor
  · intro v hv
    unfold FusedAdam.step at hv
    dsimp only at hv
    split at hv
    · exact Except.noConfusion hv
    · split at hv
      · split at hv
        · exact Except.noConfusion hv
        · simp at hv
      · simp at hv
  · intro l hl
    unfold FusedAdam._step at hl
    split at hl
    · simp at hl
    · split at hl
      · simp at hl
      · dsimp only at hl
        split at hl
        · simp at hl
        · split at hl
          · simp at hl
          · split at hl
            · simp at hl
            · simp at hl
              exact hl.symm

/-- C8 witness: at a concrete run the public `step` does not return the
closure's loss, although the inner forward `_step` computed it. -/
theorem C8_step_returns_none_witness :
    (oc1.step K0 (some 5) none none 1 none).ret ≠ .ok (some 5) ∧
    (some 5 : Option ℚ) = some 5 :=
  ⟨(C8_step_returns_none oc1 K0 (some 5) none none 1 none).1 5,
   (C8_step_returns_none oc1 K0 (some 5) none none 1 none).2 (some 5) rfl⟩

/-! C1. -/

/-- C1: every `step` invocation zeroes the shared overflow register
exactly once, at the start (the trace begins with the single register
zeroing and the outcome is independent of the register's prior value);
then the forward `_step` runs, and afterwards the reverting `_step`
over the same arguments is invoked if and only if undo was enabled at
construction and the register, read via the non-clearing peek, is
set. -/
theorem C1_step_orchestration (o : FusedAdam) (K : KernelOracle)
    (c : Option ℚ) (grads outs : Option RawIn) (scale : ℚ)
    (gn : Option (List (Option ℚ))) :
    ((o.step K c grads outs scale gn).evs.head? = some .zeroBuf ∧
     (o.step K c grads outs scale gn).evs.count .zeroBuf = 1) ∧
    (∀ b : Nat, ({ o with overflow_buf := b } : FusedAdam).step K c grads
        outs scale gn = o.step K c grads outs scale gn) ∧
    (∀ r1, ({ o with overflow_buf := 0 } : FusedAdam)._step K c grads outs
        scale gn false = r1 →
      (∀ l, r1.ret = .ok l →
        ((r1.opt.allow_undo = true ∧ (r1.opt.peek_overflow).1 ≠ 0) →
          o.step K c grads outs scale gn
            = ⟨(r1.opt._step K c grads outs scale gn true).opt,
               match (r1.opt._step K c grads outs scale gn true).ret with
               | .error e => .error e
               | .ok _ => .ok none,
               .zeroBuf :: (r1.evs
                 ++ (r1.opt._step K c grads outs scale gn true).evs)⟩) ∧
        (¬(r1.opt.allow_undo = true ∧ (r1.opt.peek_overflow).1 ≠ 0) →
          o.step K c grads outs scale gn
            = ⟨r1.opt, .ok none, .zeroBuf :: r1.evs⟩)) ∧
      (∀ e, r1.ret = .error e →
        o.step K c grads outs scale gn
          = ⟨r1.opt, .error e, .zeroBuf :: r1.evs⟩)) := by
  refine ⟨?_, fun b => rfl, ?_⟩
  · unfold FusedAdam.step
    dsimp only
    cases hr1 : (({ o with overflow_buf := 0 } : FusedAdam)._step K c grads
        outs scale gn false).ret with
    | error e =>
      refine ⟨rfl, ?_⟩
      simp [List.count_cons, List.count_eq_zero.mpr
        (stepInner_no_zeroBuf { o with overflow_buf := 0 } K c grads outs
          scale gn false)]
    | ok l =>
      by_cases hcond :
          ((({ o with overflow_buf := 0 } : FusedAdam)._step K c grads outs
              scale gn false).opt.allow_undo = true ∧
           ((({ o with overflow_buf := 0 } : FusedAdam)._step K c grads outs
              scale gn false).opt.peek_overflow).1 ≠ 0)
      · rw [if_pos hcond]
        cases hr2 : ((({ o with overflow_buf := 0 } : FusedAdam)._step K c
            grads outs scale gn false).opt._step K c grads outs scale gn
            true).ret with
        | error e =>
          refine ⟨rfl, ?_⟩
          simp [List.count_cons, List.count_append,
            List.count_eq_zero.mpr (stepInner_no_zeroBuf
              { o with overflow_buf := 0 } K c grads outs scale gn false),
            List.count_eq_zero.mpr (stepInner_no_zeroBuf
              (({ o with overflow_buf := 0 } : FusedAdam)._step K c grads
                outs scale gn false).opt K c grads outs scale gn true)]
        | ok l2 =>
          refine ⟨rfl, ?_⟩
          simp [List.count_cons, List.count_append,
            List.count_eq_zero.mpr (stepInner_no_zeroBuf
              { o with overflow_buf := 0 } K c grads outs scale gn false),
            List.count_eq_zero.mpr (stepInner_no_zeroBuf
              (({ o with overflow_buf := 0 } : FusedAdam)._step K c grads
                outs scale gn false).opt K c grads outs scale gn true)]
      · rw [if_neg hcond]
        refine ⟨rfl, ?_⟩
        simp [List.count_cons, List.count_eq_zero.mpr
          (stepInner_no_zeroBuf { o with overflow_buf := 0 } K c grads outs
            scale gn false)]
  · intro r1 hr1
    subst hr1
    refine ⟨?_, ?_⟩
    · intro l hl
      constructor
      · intro hcond
        unfold FusedAdam.step
        dsimp only
        rw [hl, if_pos hcond]
        cases hr2 : ((({ o with overflow_buf := 0 } : FusedAdam)._step K c
            grads outs scale gn false).opt._step K c grads outs scale gn
            true).ret with
        | error e => rfl
        | ok l2 => rfl
      · intro hcond
        unfold FusedAdam.step
        dsimp only
        rw [hl, if_neg hcond]
    · intro e he
      unfold FusedAdam.step
      dsimp only
      rw [he]

/-- C1 witness: the orchestration theorem at a concrete run with no
overflow and undo disabled: the trace is the single register zeroing
followed by the forward pass only. -/
theorem C1_step_orchestration_witness :
    (oc1.step K0 (some 5) none none 1 none).evs.head? = some .zeroBuf ∧
    (oc1.step K0 (some 5) none none 1 none).evs.count .zeroBuf = 1 ∧
    oc1.step K0 (some 5) none none 1 none
      = ⟨(({ oc1 with overflow_buf := 0 } : FusedAdam)._step K0 (some 5)
            none none 1 none false).opt, .ok none,
         .zeroBuf :: (({ oc1 with overflow_buf := 0 } : FusedAdam)._step K0
            (some 5) none none 1 none false).evs⟩ := by
  obtain ⟨⟨h1, h2⟩, -, h3⟩ :=
    C1_step_orchestration oc1 K0 (some 5) none none 1 none
  refine ⟨h1, h2, ?_⟩
  exact ((h3 _ rfl).1 (some 5) (by rfl)).2 (by decide)

/-! C7. -/

theorem zipWith_expand_replicate :
    ∀ gs : List ParamGroup,
      List.zipWith expand gs (List.replicate gs.length none)
        = gs.map fun g => List.replicate g.params.length none := by
  intro gs
  induction gs with
  | nil => rfl
  | cons g gs ih => simp [List.replicate_succ, expand, ih]

theorem zipWith_expand_somes :
    ∀ (gs : List ParamGroup) (ls : List (List (Option Tensor))),
      ls.length = gs.length →
      List.zipWith expand gs (ls.map some) = ls := by
  intro gs
  induction gs with
  | nil =>
    intro ls h
    rw [List.length_eq_zero.mp h]
    rfl
  | cons g gs ih =>
    intro ls h
    cases ls with
    | nil => simp at h
    | cons l ls =>
      simp only [List.length_cons, Nat.succ.injEq] at h
      simp [expand, ih ls h]

/-- C7: the Input Normalizer maps the three accepted shapes of the same
logical gradient assignment — absent, a single flat sequence (one
group), and a nested sequence of sequences (one inner sequence per
group) — to identical per-group, per-parameter structures; an absent
input yields one `None` list per group, sized to that group's parameter
count. -/
theorem C7_input_normalizer (gs : List ParamGroup) (g : ParamGroup)
    (l : List (Option Tensor)) (ls : List (List (Option Tensor))) :
    (normalizeFull none gs
       = .ok (gs.map fun g' => List.replicate g'.params.length none)) ∧
    (l ≠ [] → normalizeFull (some (Sum.inl l : RawIn)) [g] = .ok [l]) ∧
    (normalizeFull (some (Sum.inr [l] : RawIn)) [g] = .ok [l]) ∧
    (ls ≠ [] → ls.length = gs.length →
      normalizeFull (some (Sum.inr ls : RawIn)) gs = .ok ls) ∧
    (gs ≠ [] →
      normalizeFull (some (Sum.inr (gs.map fun g' =>
          List.replicate g'.params.length none) : RawIn)) gs
        = normalizeFull none gs) ∧
    (0 < g.params.length →
      normalizeFull (some (Sum.inl (List.replicate g.params.length none)
          : RawIn)) [g]
        = normalizeFull none [g]) := by
  refine ⟨?_, ?_, ?_, ?_, ?_, ?_⟩
  · unfold normalizeFull toGroups
    simp [Except.map, zipWith_expand_replicate]
  · intro hl
    unfold normalizeFull toGroups
    dsimp only
    rw [if_neg (by simpa [List.isEmpty_iff] using hl)]
    simp [Except.map, expand]
  · unfold normalizeFull toGroups
    dsimp only
    rw [if_neg (by simp [List.isEmpty_iff])]
    simp [Except.map, expand]
  · intro hls hlen
    unfold normalizeFull toGroups
    dsimp only
    rw [if_neg (by simpa [List.isEmpty_iff] using hls)]
    simp [Except.map, zipWith_expand_somes gs ls hlen]
  · intro hgs
    unfold normalizeFull toGroups
    dsimp only
    rw [if_neg (by simpa [List.isEmpty_iff, List.map_eq_nil_iff] using hgs)]
    have hlen : (gs.map fun g' =>
        (List.replicate g'.params.length none : List (Option Tensor))).length
          = gs.length := by simp
    simp only [Except.map]
    rw [zipWith_expand_somes gs _ hlen, zipWith_expand_replicate]
  · intro hn
    unfold normalizeFull toGroups
    dsimp only
    rw [if_neg (by
      cases hlen : g.params.length with
      | zero => exact absurd hn (by omega)
      | succ k => simp [List.replicate_succ])]
    simp [Except.map, expand, zipWith_expand_replicate]

/-- C7 witness: the normalizer theorem at concrete inputs; all three
shapes of the same assignment normalize to the same structure. -/
theorem C7_input_normalizer_witness :
    normalizeFull none [grpGN] = .ok [[none, none]] ∧
    normalizeFull (some (Sum.inl [some tG, none] : RawIn)) [grpGN]
      = .ok [[some tG, none]] ∧
    normalizeFull (some (Sum.inr [[some tG, none]] : RawIn)) [grpGN]
      = .ok [[some tG, none]] ∧
    normalizeFull (some (Sum.inr [[none, none]] : RawIn)) [grpGN]
      = normalizeFull none [grpGN] ∧
    normalizeFull (some (Sum.inl [none, none] : RawIn)) [grpGN]
      = normalizeFull none [grpGN] := by
  obtain ⟨h1, h2, h3, -, h5, h6⟩ :=
    C7_input_normalizer [grpGN] grpGN [some tG, none] [[some tG, none]]
  refine ⟨h1.trans (by rfl), (h2 (by simp)).trans (by rfl),
    h3.trans (by rfl), ?_, ?_⟩
  · have := h5 (by simp)
    simpa using this
  · have := h6 (by simp [grpGN, pG, pN])
    simpa [grpGN, pG, pN] using this

/-! Resolution depends on the state store only through its shape. -/

theorem resolvedAt_congr :
    ∀ (ps : List Param) (gs os : List (Option Tensor))
      (sts sts' : List (Option ParamState)), sts.length = sts'.length →
      ∀ i, resolvedAt ps gs os sts i = resolvedAt ps gs os sts' i := by
  intro ps
  induction ps with
  | nil =>
    intro gs os sts sts' _ i
    cases gs <;> cases os <;> cases sts <;> cases sts' <;>
      simp [resolvedAt]
  | cons p ps ih =>
    intro gs os sts sts' hlen i
    cases gs with
    | nil => simp [resolvedAt]
    | cons g0 gs =>
      cases os with
      | nil =>
        cases sts <;> cases sts' <;> cases i <;> simp [resolvedAt]
      | cons o0 os =>
        cases sts with
        | nil =>
          cases sts' with
          | nil => rfl
          | cons st' sts' => simp at hlen
        | cons st sts =>
          cases sts' with
          | nil => simp at hlen
          | cons st' sts' =>
            simp only [List.length_cons, Nat.succ.injEq] at hlen
            cases i with
            | zero => rfl
            | succ i => simpa [resolvedAt] using ih gs os sts sts' hlen i

theorem gResolvedAt_congr :
    ∀ (gs : List ParamGroup) (grs oprs : List (Option (List (Option Tensor))))
      (ns : List (Option ℚ)) (stss stss' : List (List (Option ParamState))),
      (∀ gi : Nat, (stss[gi]?).map List.length
        = (stss'[gi]?).map List.length) →
      ∀ gi pi, gResolvedAt gs grs oprs ns stss gi pi
        = gResolvedAt gs grs oprs ns stss' gi pi := by
  intro gs
  induction gs with
  | nil =>
    intro grs oprs ns stss stss' _ gi pi
    cases grs <;> cases oprs <;> cases ns <;> cases stss <;> cases stss' <;>
      simp [gResolvedAt]
  | cons g gs ih =>
    intro grs oprs ns stss stss' hsh gi pi
    cases grs with
    | nil => simp [gResolvedAt]
    | cons gr grs =>
      cases oprs with
      | nil =>
        cases ns <;> cases stss <;> cases stss' <;> cases gi <;>
          simp [gResolvedAt]
      | cons opr oprs =>
        cases ns with
        | nil =>
          cases stss <;> cases stss' <;> cases gi <;> simp [gResolvedAt]
        | cons n ns =>
          cases stss with
          | nil =>
            cases stss' with
            | nil => rfl
            | cons sts' stss' => simpa using hsh 0
          | cons sts stss =>
            cases stss' with
            | nil => simpa using hsh 0
            | cons sts' stss' =>
              have h0 : sts.length = sts'.length := by simpa using hsh 0
              cases gi with
              | zero =>
                simpa [gResolvedAt] using
                  resolvedAt_congr g.params (expand g gr) (expand g opr)
                    sts sts' h0 pi
              | succ gi =>
                have hsh' : ∀ gi'', (stss[gi'']?).map List.length
                    = (stss'[gi'']?).map List.length := fun gi'' => by
                  simpa using hsh (gi'' + 1)
                simpa [gResolvedAt] using
                  ih grs oprs ns stss stss' hsh' gi pi

/-! C3. -/

theorem stepInner_getStep (o : FusedAdam) (K : KernelOracle) (c : Option ℚ)
    (grads outs : Option RawIn) (scale : ℚ) (gn : Option (List (Option ℚ)))
    (gg og : List (Option (List (Option Tensor)))) (u : Bool)
    (hst : o.amp_stash = none)
    (hg : toGroups grads o.param_groups.length = .ok gg)
    (ho : toGroups outs o.param_groups.length = .ok og) :
    ∀ l, (o._step K c grads outs scale gn u).ret = .ok l →
      ∀ gi pi : Nat,
        getStep2 (o._step K c grads outs scale gn u).opt.states gi pi
          = getStep2 o.states gi pi
            + (if (gResolvedAt o.param_groups gg og
                    (gn.getD (List.replicate o.param_groups.length none))
                    o.states gi pi).isSome then (if u then -1 else 1)
               else 0) := by
  intro l hl gi pi
  cases u with
  | false =>
    have hfwd := stepFwd_eq o K c grads outs scale gn gg og hst hg ho
    rw [hfwd] at hl ⊢
    dsimp only at hl ⊢
    cases hRe : (procGroups K scale o.eps_mode o.use_multi_tensor false 0
        o.param_groups gg og
        (gn.getD (List.replicate o.param_groups.length none))
        o.states o.overflow_buf none).err with
    | some e => rw [hRe] at hl; exact Except.noConfusion hl
    | none =>
      simpa using procGroups_getStep K scale o.eps_mode o.use_multi_tensor
        false o.param_groups gg og
        (gn.getD (List.replicate o.param_groups.length none))
        o.states o.overflow_buf none 0 hRe gi pi
  | true =>
    by_cases hau : o.allow_undo = true
    · by_cases hmtc : o.use_multi_tensor = true
      · exfalso
        unfold FusedAdam._step at hl
        rw [if_neg (fun h => h.2 hau), if_pos ⟨rfl, hmtc⟩] at hl
        exact Except.noConfusion hl
      · have hmtf : o.use_multi_tensor = false := by
          cases hmt2 : o.use_multi_tensor
          · rfl
          · exact absurd hmt2 hmtc
        have hundo := stepUndo_eq o K c grads outs scale gn gg og hau hmtf
          hst hg ho
        rw [hundo] at hl ⊢
        dsimp only at hl ⊢
        cases hRe : (procGroups K scale o.eps_mode o.use_multi_tensor true 0
            o.param_groups gg og
            (gn.getD (List.replicate o.param_groups.length none))
            o.states o.overflow_buf none).err with
        | some e => rw [hRe] at hl; exact Except.noConfusion hl
        | none =>
          simpa using procGroups_getStep K scale o.eps_mode
            o.use_multi_tensor true o.param_groups gg og
            (gn.getD (List.replicate o.param_groups.length none))
            o.states o.overflow_buf none 0 hRe gi pi
    · exfalso
      unfold FusedAdam._step at hl
      rw [if_pos ⟨rfl, hau⟩] at hl
      exact Except.noConfusion hl

theorem stepInner_shape (o : FusedAdam) (K : KernelOracle) (c : Option ℚ)
    (grads outs : Option RawIn) (scale : ℚ) (gn : Option (List (Option ℚ)))
    (gg og : List (Option (List (Option Tensor))))
    (hst : o.amp_stash = none)
    (hg : toGroups grads o.param_groups.length = .ok gg)
    (ho : toGroups outs o.param_groups.length = .ok og) :
    ∀ gi : Nat,
      ((o._step K c grads outs scale gn false).opt.states[gi]?).map
          List.length
        = (o.states[gi]?).map List.length := by
  intro gi
  rw [stepFwd_eq o K c grads outs scale gn gg og hst hg ho]
  exact procGroups_shape K scale o.eps_mode o.use_multi_tensor false
    o.param_groups gg og
    (gn.getD (List.replicate o.param_groups.length none))
    o.states o.overflow_buf none 0 gi

/-- C3: in a successful forward `_step`, every parameter with a
resolved gradient has its step counter incremented by exactly 1 and
every other counter is unchanged, so counters never decrease across
successive forward steps; a subsequent successful undo `_step` over
the same arguments restores every counter to its pre-step value. -/
theorem C3_step_counters (o : FusedAdam) (K : KernelOracle) (c : Option ℚ)
    (grads outs : Option RawIn) (scale : ℚ) (gn : Option (List (Option ℚ)))
    (gg og : List (Option (List (Option Tensor))))
    (hst : o.amp_stash = none)
    (hg : toGroups grads o.param_groups.length = .ok gg)
    (ho : toGroups outs o.param_groups.length = .ok og) :
    ∀ l, (o._step K c grads outs scale gn false).ret = .ok l →
      (∀ gi pi : Nat,
        getStep2 (o._step K c grads outs scale gn false).opt.states gi pi
          = getStep2 o.states gi pi
            + (if (gResolvedAt o.param_groups gg og
                    (gn.getD (List.replicate o.param_groups.length none))
                    o.states gi pi).isSome then 1 else 0)) ∧
      (∀ gi pi : Nat, getStep2 o.states gi pi
          ≤ getStep2 (o._step K c grads outs scale gn false).opt.states gi
              pi) ∧
      (∀ l2, ((o._step K c grads outs scale gn false).opt._step K c grads
           outs scale gn true).ret = .ok l2 →
        ∀ gi pi : Nat,
          getStep2 ((o._step K c grads outs scale gn false).opt._step K c
              grads outs scale gn true).opt.states gi pi
            = getStep2 o.states gi pi) := by
  intro l hl
  have hfwd := stepFwd_eq o K c grads outs scale gn gg og hst hg ho
  have htr := stepInner_getStep o K c grads outs scale gn gg og false hst
    hg ho l hl
  simp only [if_false, Bool.false_eq_true] at htr
  refine ⟨htr, ?_, ?_⟩
  · intro gi pi
    have := htr gi pi
    split at this <;> omega
  · intro l2 hl2 gi pi
    have hst' : (o._step K c grads outs scale gn false).opt.amp_stash
        = none := by rw [hfwd]; exact hst
    have hg' : toGroups grads
        (o._step K c grads outs scale gn false).opt.param_groups.length
        = .ok gg := by rw [hfwd]; exact hg
    have ho' : toGroups outs
        (o._step K c grads outs scale gn false).opt.param_groups.length
        = .ok og := by rw [hfwd]; exact ho
    have htr2 := stepInner_getStep
      (o._step K c grads outs scale gn false).opt K c grads outs scale gn
      gg og true hst' hg' ho' l2 hl2 gi pi
    simp only [if_true] at htr2
    have hsh := stepInner_shape o K c grads outs scale gn gg og hst hg ho
    have hcongr := gResolvedAt_congr
      (o._step K c grads outs scale gn false).opt.param_groups gg og
      (gn.getD (List.replicate
        (o._step K c grads outs scale gn false).opt.param_groups.length
        none))
      (o._step K c grads outs scale gn false).opt.states o.states hsh gi pi
    have hpg : (o._step K c grads outs scale gn false).opt.param_groups
        = o.param_groups := by rw [hfwd]
    rw [htr2, hcongr, hpg, htr gi pi]
    split <;> omega

/-- C3 witness: a concrete forward step increments the gradient-bearing
parameter's counter by one, and the subsequent undo restores it. -/
theorem C3_step_counters_witness :
    getStep2 ((oc2._step K0 (some 5) none none 1 none false)).opt.states 0 0
      = getStep2 oc2.states 0 0 + 1 ∧
    getStep2 oc2.states 0 0
      ≤ getStep2 ((oc2._step K0 (some 5) none none 1 none false)).opt.states
          0 0 ∧
    getStep2 ((oc2._step K0 (some 5) none none 1 none false).opt._step K0
        (some 5) none none 1 none true).opt.states 0 0
      = getStep2 oc2.states 0 0 := by
  obtain ⟨h1, h2, h3⟩ := C3_step_counters oc2 K0 (some 5) none none 1 none
    [none] [none] rfl rfl rfl (some 5) (by rfl)
  exact ⟨(h1 0 0).trans (by decide), h2 0 0, h3 none (by rfl) 0 0⟩

/-! C10. -/

theorem stepInner_unchanged (o : FusedAdam) (K : KernelOracle)
    (c : Option ℚ) (grads outs : Option RawIn) (scale : ℚ)
    (gn : Option (List (Option ℚ))) (u : Bool)
    (gg og : List (Option (List (Option Tensor))))
    (hst : o.amp_stash = none)
    (hg : toGroups grads o.param_groups.length = .ok gg)
    (ho : toGroups outs o.param_groups.length = .ok og) (gi pi : Nat)
    (hskip : gResolvedAt o.param_groups gg og
        (gn.getD (List.replicate o.param_groups.length none))
        o.states gi pi = none) :
    listGet2 (o._step K c grads outs scale gn u).opt.states gi pi
      = listGet2 o.states gi pi := by
  cases u with
  | false =>
    rw [stepFwd_eq o K c grads outs scale gn gg og hst hg ho]
    exact procGroups_unchanged K scale o.eps_mode o.use_multi_tensor false
      o.param_groups gg og
      (gn.getD (List.replicate o.param_groups.length none))
      o.states o.overflow_buf none 0 gi pi hskip
  | true =>
    by_cases hau : o.allow_undo = true
    · by_cases hmtc : o.use_multi_tensor = true
      · unfold FusedAdam._step
        rw [if_neg (fun h => h.2 hau), if_pos ⟨rfl, hmtc⟩]
      · have hmtf : o.use_multi_tensor = false := by
          cases hmt2 : o.use_multi_tensor
          · rfl
          · exact absurd hmt2 hmtc
        rw [stepUndo_eq o K c grads outs scale gn gg og hau hmtf hst hg ho]
        exact procGroups_unchanged K scale o.eps_mode o.use_multi_tensor
          true o.param_groups gg og
          (gn.getD (List.replicate o.param_groups.length none))
          o.states o.overflow_buf none 0 gi pi hskip
    · unfold FusedAdam._step
      rw [if_pos ⟨rfl, hau⟩]

theorem stepInner_noev (o : FusedAdam) (K : KernelOracle)
    (c : Option ℚ) (grads outs : Option RawIn) (scale : ℚ)
    (gn : Option (List (Option ℚ))) (u : Bool)
    (gg og : List (Option (List (Option Tensor))))
    (hst : o.amp_stash = none)
    (hg : toGroups grads o.param_groups.length = .ok gg)
    (ho : toGroups outs o.param_groups.length = .ok og) (gi pi : Nat)
    (hskip : gResolvedAt o.param_groups gg og
        (gn.getD (List.replicate o.param_groups.length none))
        o.states gi pi = none) :
    ∀ s : Int, Event.adam gi pi s ∉ (o._step K c grads outs scale gn u).evs
      ∧ Event.adamUndo gi pi s ∉ (o._step K c grads outs scale gn u).evs := by
  have key : ∀ e, (∃ s : Int, e = Event.adam gi pi s ∨
      e = Event.adamUndo gi pi s) →
      e ∉ (procGroups K scale o.eps_mode o.use_multi_tensor u 0
        o.param_groups gg og
        (gn.getD (List.replicate o.param_groups.length none))
        o.states o.overflow_buf none).evs := by
    intro e ⟨s, hs⟩ hmem
    obtain ⟨gj, hgj, -, -, hact⟩ := procGroups_evs K scale o.eps_mode
      o.use_multi_tensor u o.param_groups gg og
      (gn.getD (List.replicate o.param_groups.length none))
      o.states o.overflow_buf none 0 e hmem
    have hgjeq : gj = gi := by
      rcases hs with hs | hs <;> rw [hs] at hgj <;>
        simpa [evGroup] using hgj.symm
    subst hgjeq
    have := hact pi s (by rcases hs with hs | hs <;> simp [hs])
    rw [Nat.sub_zero, hskip] at this
    simp at this
  cases u with
  | false =>
    rw [stepFwd_eq o K c grads outs scale gn gg og hst hg ho]
    intro s
    exact ⟨key _ ⟨s, Or.inl rfl⟩, key _ ⟨s, Or.inr rfl⟩⟩
  | true =>
    by_cases hau : o.allow_undo = true
    · by_cases hmtc : o.use_multi_tensor = true
      · unfold FusedAdam._step
        rw [if_neg (fun h => h.2 hau), if_pos ⟨rfl, hmtc⟩]
        intro s
        exact ⟨fun h => by simp at h, fun h => by simp at h⟩
      · have hmtf : o.use_multi_tensor = false := by
          cases hmt2 : o.use_multi_tensor
          · rfl
          · exact absurd hmt2 hmtc
        rw [stepUndo_eq o K c grads outs scale gn gg og hau hmtf hst hg ho]
        intro s
        exact ⟨key _ ⟨s, Or.inl rfl⟩, key _ ⟨s, Or.inr rfl⟩⟩
    · unfold FusedAdam._step
      rw [if_pos ⟨rfl, hau⟩]
      intro s
      exact ⟨fun h => by simp at h, fun h => by simp at h⟩

/-- C10: a parameter whose supplied gradient is absent and whose
attached gradient is also absent is skipped entirely by a `step` call:
its per-parameter state entry is unchanged (in particular no state is
created for it) and no per-parameter kernel invocation, forward or
undo, is issued for it. -/
theorem C10_absent_gradient (o : FusedAdam) (K : KernelOracle)
    (c : Option ℚ) (grads outs : Option RawIn) (scale : ℚ)
    (gn : Option (List (Option ℚ)))
    (gg og : List (Option (List (Option Tensor)))) (gi pi : Nat)
    (hst : o.amp_stash = none)
    (hg : toGroups grads o.param_groups.length = .ok gg)
    (ho : toGroups outs o.param_groups.length = .ok og)
    (hskip : gResolvedAt o.param_groups gg og
        (gn.getD (List.replicate o.param_groups.length none))
        o.states gi pi = none) :
    listGet2 (o.step K c grads outs scale gn).opt.states gi pi
      = listGet2 o.states gi pi ∧
    ∀ s : Int, Event.adam gi pi s ∉ (o.step K c grads outs scale gn).evs ∧
      Event.adamUndo gi pi s ∉ (o.step K c grads outs scale gn).evs := by
  have hunch1 := stepInner_unchanged ({ o with overflow_buf := 0 }) K c
    grads outs scale gn false gg og hst hg ho gi pi hskip
  have hne1 := stepInner_noev ({ o with overflow_buf := 0 }) K c grads outs
    scale gn false gg og hst hg ho gi pi hskip
  have hfwd := stepFwd_eq ({ o with overflow_buf := 0 }) K c grads outs
    scale gn gg og hst hg ho
  have hst' : (({ o with overflow_buf := 0 } : FusedAdam)._step K c grads
      outs scale gn false).opt.amp_stash = none := by rw [hfwd]; exact hst
  have hg' : toGroups grads (({ o with overflow_buf := 0 } :
      FusedAdam)._step K c grads outs scale gn
      false).opt.param_groups.length = .ok gg := by rw [hfwd]; exact hg
  have ho' : toGroups outs (({ o with overflow_buf := 0 } :
      FusedAdam)._step K c grads outs scale gn
      false).opt.param_groups.length = .ok og := by rw [hfwd]; exact ho
  have hpg : (({ o with overflow_buf := 0 } : FusedAdam)._step K c grads
      outs scale gn false).opt.param_groups = o.param_groups := by rw [hfwd]
  have hsh := stepInner_shape ({ o with overflow_buf := 0 }) K c grads outs
    scale gn gg og hst hg ho
  have hskip' : gResolvedAt (({ o with overflow_buf := 0 } :
      FusedAdam)._step K c grads outs scale gn false).opt.param_groups gg og
      (gn.getD (List.replicate (({ o with overflow_buf := 0 } :
        FusedAdam)._step K c grads outs scale gn
        false).opt.param_groups.length none))
      (({ o with overflow_buf := 0 } : FusedAdam)._step K c grads outs
        scale gn false).opt.states gi pi = none := by
    rw [hpg]
    rw [gResolvedAt_congr o.param_groups gg og
      (gn.getD (List.replicate o.param_groups.length none)) _ o.states hsh
      gi pi]
    exact hskip
  have hunch2 := stepInner_unchanged (({ o with overflow_buf := 0 } :
    FusedAdam)._step K c grads outs scale gn false).opt K c grads outs
    scale gn true gg og hst' (by rw [hpg]; exact hg) (by rw [hpg]; exact ho)
    gi pi (by rw [hpg] at hskip' ⊢; exact hskip')
  have hne2 := stepInner_noev (({ o with overflow_buf := 0 } :
    FusedAdam)._step K c grads outs scale gn false).opt K c grads outs
    scale gn true gg og hst' (by rw [hpg]; exact hg) (by rw [hpg]; exact ho)
    gi pi (by rw [hpg] at hskip' ⊢; exact hskip')
  have hunch1' : listGet2 (({ o with overflow_buf := 0 } :
      FusedAdam)._step K c grads outs scale gn false).opt.states gi pi
      = listGet2 o.states gi pi := hunch1
  unfold FusedAdam.step
  dsimp only
  cases hr1 : (({ o with overflow_buf := 0 } : FusedAdam)._step K c grads
      outs scale gn false).ret with
  | error e =>
    refine ⟨hunch1', fun s => ⟨fun hmem => ?_, fun hmem => ?_⟩⟩
    · rcases List.mem_cons.mp hmem with h | h
      · exact Event.noConfusion h
      · exact (hne1 s).1 h
    · rcases List.mem_cons.mp hmem with h | h
      · exact Event.noConfusion h
      · exact (hne1 s).2 h
  | ok l =>
    by_cases hcond :
        ((({ o with overflow_buf := 0 } : FusedAdam)._step K c grads outs
            scale gn false).opt.allow_undo = true ∧
         ((({ o with overflow_buf := 0 } : FusedAdam)._step K c grads outs
            scale gn false).opt.peek_overflow).1 ≠ 0)
    · rw [if_pos hcond]
      cases hr2 : ((({ o with overflow_buf := 0 } : FusedAdam)._step K c
          grads outs scale gn false).opt._step K c grads outs scale gn
          true).ret with
      | error e =>
        refine ⟨hunch2.trans hunch1', fun s => ⟨fun hmem => ?_,
          fun hmem => ?_⟩⟩
        · rcases List.mem_cons.mp hmem with h | h
          · exact Event.noConfusion h
          · rcases List.mem_append.mp h with h | h
            · exact (hne1 s).1 h
            · exact (hne2 s).1 h
        · rcases List.mem_cons.mp hmem with h | h
          · exact Event.noConfusion h
          · rcases List.mem_append.mp h with h | h
            · exact (hne1 s).2 h
            · exact (hne2 s).2 h
      | ok l2 =>
        refine ⟨hunch2.trans hunch1', fun s => ⟨fun hmem => ?_,
          fun hmem => ?_⟩⟩
        · rcases List.mem_cons.mp hmem with h | h
          · exact Event.noConfusion h
          · rcases List.mem_append.mp h with h | h
            · exact (hne1 s).1 h
            · exact (hne2 s).1 h
        · rcases List.mem_cons.mp hmem with h | h
          · exact Event.noConfusion h
          · rcases List.mem_append.mp h with h | h
            · exact (hne1 s).2 h
            · exact (hne2 s).2 h
    · rw [if_neg hcond]
      refine ⟨hunch1', fun s => ⟨fun hmem => ?_, fun hmem => ?_⟩⟩
      · rcases List.mem_cons.mp hmem with h | h
        · exact Event.noConfusion h
        · exact (hne1 s).1 h
      · rcases List.mem_cons.mp hmem with h | h
        · exact Event.noConfusion h
        · exact (hne1 s).2 h

/-- C10 witness: in a concrete run the gradient-free parameter keeps
its (absent) state and receives no kernel call. -/
theorem C10_absent_gradient_witness :
    listGet2 (oc1.step K0 (some 5) none none 1 none).opt.states 0 1
      = listGet2 oc1.states 0 1 ∧
    ∀ s : Int,
      Event.adam 0 1 s ∉ (oc1.step K0 (some 5) none none 1 none).evs ∧
      Event.adamUndo 0 1 s ∉ (oc1.step K0 (some 5) none none 1 none).evs :=
  C10_absent_gradient oc1 K0 (some 5) none none 1 none [none] [none] 0 1
    rfl rfl rfl (by decide)

/-! C9. -/

theorem lastNewStep_none (d : Int) :
    ∀ (ps : List Param) (gs os : List (Option Tensor))
      (sts : List (Option ParamState)),
      (∀ j, resolvedAt ps gs os sts j = none) →
      lastNewStep d ps gs os sts = none := by
  intro ps
  induction ps with
  | nil => intro gs os sts _; cases gs <;> cases os <;> cases sts <;> rfl
  | cons p ps ih =>
    intro gs os sts hall
    cases gs with
    | nil => rfl
    | cons g0 gs =>
      cases os with
      | nil => rfl
      | cons o0 os =>
        cases sts with
        | nil => rfl
        | cons st sts =>
          have h0 : resolveGrad g0 p = none := by
            simpa [resolvedAt] using hall 0
          have htail := ih gs os sts fun j => by
            simpa [resolvedAt] using hall (j + 1)
          simp [lastNewStep, htail, h0, Option.orElse]

theorem lastNewStep_last (d : Int) :
    ∀ (ps : List Param) (gs os : List (Option Tensor))
      (sts : List (Option ParamState)) (k : Nat),
      (resolvedAt ps gs os sts k).isSome →
      (∀ j, k < j → resolvedAt ps gs os sts j = none) →
      lastNewStep d ps gs os sts = some (getStep sts k + d) := by
  intro ps
  induction ps with
  | nil => intro gs os sts k hk _; simp [resolvedAt] at hk
  | cons p ps ih =>
    intro gs os sts k hk hafter
    cases gs with
    | nil => simp [resolvedAt] at hk
    | cons g0 gs =>
      cases os with
      | nil =>
        exfalso
        cases k <;> simp [resolvedAt] at hk
      | cons o0 os =>
        cases sts with
        | nil =>
          exfalso
          cases k <;> simp [resolvedAt] at hk
        | cons st sts =>
          cases k with
          | zero =>
            have h0 : (resolveGrad g0 p).isSome := by
              simpa [resolvedAt] using hk
            have htail := lastNewStep_none d ps gs os sts fun j => by
              simpa [resolvedAt] using hafter (j + 1) (by omega)
            simp [lastNewStep, htail, h0, Option.orElse, getStep, stepValO]
          | succ k =>
            have hk' : (resolvedAt ps gs os sts k).isSome := by
              simpa [resolvedAt] using hk
            have hafter' : ∀ j, k < j →
                resolvedAt ps gs os sts j = none := fun j hj => by
              simpa [resolvedAt] using hafter (j + 1) (by omega)
            have htail := ih gs os sts k hk' hafter'
            simp [lastNewStep, htail, Option.orElse, getStep]

/-- C9: in batched (multi-tensor) mode the one `adam_mt` invocation a
group receives carries a single `step` value: the updated counter of
the last gradient-bearing parameter iterated in that group, whatever
the other parameters' counters are; when no parameter of the group
carries a gradient, the value handed over is whatever the leaked loop
variable held before the group (a `NameError` when it was never
assigned). -/
theorem C9_mt_step_value (K : KernelOracle) (gi : Nat) (g : ParamGroup)
    (graw opraw : Option (List (Option Tensor))) (gn : Option ℚ)
    (scale : ℚ) (em : Nat) (sts : List (Option ParamState)) (buf : Nat)
    (ls : Option Int) :
    ((procGroup K gi g graw opraw gn scale em true false sts buf ls).err
        = none →
      ∃ s, (lastNewStep 1 g.params (expand g graw) (expand g opraw)
              sts).orElse (fun _ => ls) = some s ∧
        (procGroup K gi g graw opraw gn scale em true false sts buf ls).evs
          = [.adamMT gi s]) ∧
    (∀ k : Nat, (resolvedAt g.params (expand g graw) (expand g opraw) sts
          k).isSome →
      (∀ j, k < j → resolvedAt g.params (expand g graw) (expand g opraw)
          sts j = none) →
      lastNewStep 1 g.params (expand g graw) (expand g opraw) sts
        = some (getStep sts k + 1)) ∧
    ((∀ j, resolvedAt g.params (expand g graw) (expand g opraw) sts j
        = none) →
      ∀ cs, combinedScale g.max_grad_norm gn scale = .ok cs →
      (ls = none →
        (procGroup K gi g graw opraw gn scale em true false sts buf ls).err
          = some .nameError) ∧
      (∀ w, ls = some w →
        (procGroup K gi g graw opraw gn scale em true false sts buf ls).evs
          = [.adamMT gi w])) := by
  refine ⟨?_, fun k => lastNewStep_last 1 g.params _ _ sts k, ?_⟩
  · intro hok
    unfold procGroup at hok ⊢
    cases hcs : combinedScale g.max_grad_norm gn scale with
    | error e => rw [hcs] at hok; simp at hok
    | ok cs =>
      rw [hcs] at hok
      dsimp only at hok ⊢
      cases herr : (procParams K gi g cs em
          (if g.bias_correction then 1 else 0) true false g.params
          (expand g graw) (expand g opraw) sts 0 buf ls).err with
      | some e =>
        rw [herr] at hok
        dsimp only at hok
        rw [herr] at hok
        simp at hok
      | none =>
        rw [herr] at hok
        dsimp only at hok ⊢
        have hls := procParams_ls K gi g cs em
          (if g.bias_correction then 1 else 0) true false g.params
          (expand g graw) (expand g opraw) sts 0 buf ls herr
        simp only [Bool.false_eq_true, if_false] at hls
        cases hl2 : (procParams K gi g cs em
            (if g.bias_correction then 1 else 0) true false g.params
            (expand g graw) (expand g opraw) sts 0 buf ls).ls with
        | none => rw [hl2] at hok; simp at hok
        | some s =>
          refine ⟨s, ?_, ?_⟩
          · rw [← hls, hl2]
          · dsimp only
            rw [procParams_evs_mt]
            simp
  · intro hall cs hcs
    unfold procGroup
    rw [hcs]
    dsimp only
    rw [procParams_all_none K gi g cs em
      (if g.bias_correction then 1 else 0) true false g.params
      (expand g graw) (expand g opraw) sts 0 buf ls hall]
    constructor
    · intro hlsn
      subst hlsn
      rfl
    · intro w hw
      subst hw
      rfl

/-- C9 witness: with counters 5 (gradient-bearing, last) and absent,
the batched call carries step 6; a gradient-free group reuses the
carried value or fails with the name error. -/
theorem C9_mt_step_value_witness :
    (procGroup K0 0 grpGN none none none 1 1 true false
        [some { step := 5, exp_avg := tA, exp_avg_sq := tA }, none] 0
        none).evs = [.adamMT 0 6] ∧
    lastNewStep 1 grpGN.params (expand grpGN none) (expand grpGN none)
        [some { step := 5, exp_avg := tA, exp_avg_sq := tA }, none]
      = some (getStep
          [some { step := 5, exp_avg := tA, exp_avg_sq := tA }, none] 0
          + 1) ∧
    (procGroup K0 0 grpN none none none 1 1 true false [none] 0 none).err
      = some .nameError ∧
    (procGroup K0 0 grpN none none none 1 1 true false [none] 0
        (some 42)).evs = [.adamMT 0 42] := by
  obtain ⟨h1, h2, -⟩ := C9_mt_step_value K0 0 grpGN none none none 1 1
    [some { step := 5, exp_avg := tA, exp_avg_sq := tA }, none] 0 none
  obtain ⟨-, -, h3⟩ := C9_mt_step_value K0 0 grpN none none none 1 1
    [none] 0 none
  obtain ⟨-, -, h4⟩ := C9_mt_step_value K0 0 grpN none none none 1 1
    [none] 0 (some 42)
  have hallN : ∀ j, resolvedAt grpN.params (expand grpN none)
      (expand grpN none) [none] j = none := by
    intro j
    cases j with
    | zero => rfl
    | succ k => cases k <;> rfl
  refine ⟨?_, ?_, (h3 hallN 1 rfl).1 rfl, (h4 hallN 1 rfl).2 42 rfl⟩
  · obtain ⟨s, hs, hev⟩ := h1 (by rfl)
    have hX : (lastNewStep 1 grpGN.params (expand grpGN none)
        (expand grpGN none)
        [some { step := 5, exp_avg := tA, exp_avg_sq := tA },
         none]).orElse (fun _ => (none : Option Int)) = some 6 := by rfl
    have h6 : (6 : Int) = s := Option.some.inj (hX.symm.trans hs)
    rw [← h6] at hev
    exact hev
  · refine h2 0 (by rfl) ?_
    intro j hj
    cases j with
    | zero => omega
    | succ k =>
      cases k with
      | zero => rfl
      | succ m => rfl

/-! C5. -/

theorem procParams_fwd_no_undo (K : KernelOracle) (gi : Nat)
    (g : ParamGroup) (cs : ℚ) (em bc : Nat) (mt : Bool) :
    ∀ (ps : List Param) (gs os : List (Option Tensor))
      (sts : List (Option ParamState)) (pi buf : Nat) (ls : Option Int)
      (gj j : Nat) (s : Int),
      Event.adamUndo gj j s
        ∉ (procParams K gi g cs em bc mt false ps gs os sts pi buf ls).evs := by
  intro ps
  induction ps with
  | nil => intro gs os sts pi buf ls gj j s h; simp [procParams] at h
  | cons p ps ih =>
    intro gs os sts pi buf ls gj j s h
    cases gs with
    | nil => simp [procParams] at h
    | cons g0 gs =>
      cases os with
      | nil => simp [procParams] at h
      | cons o0 os =>
        cases sts with
        | nil => simp [procParams] at h
        | cons st sts =>
          simp only [procParams] at h
          cases hr : resolveGrad g0 p with
          | none =>
            rw [hr] at h
            exact ih gs os sts (pi + 1) buf ls gj j s (by simpa using h)
          | some gr =>
            rw [hr] at h
            by_cases hs : gr.isSparse
            · simp [hs] at h
            · simp only [hs, Bool.false_eq_true, if_false,
                List.mem_append] at h
              rcases h with h | h
              · rw [stepParam_evs] at h
                cases mt <;> simp at h
              · exact ih gs os sts (pi + 1) _ _ gj j s h

theorem procGroup_fwd_no_undo (K : KernelOracle) (gi : Nat)
    (g : ParamGroup) (graw opraw : Option (List (Option Tensor)))
    (gn : Option ℚ) (scale : ℚ) (em : Nat) (mt : Bool)
    (sts : List (Option ParamState)) (buf : Nat) (ls : Option Int)
    (gj j : Nat) (s : Int) :
    Event.adamUndo gj j s
      ∉ (procGroup K gi g graw opraw gn scale em mt false sts buf ls).evs := by
  intro h
  unfold procGroup at h
  rcases hcs : combinedScale g.max_grad_norm gn scale with e | cs <;>
    rw [hcs] at h
  · simp at h
  · dsimp only at h
    cases herr : (procParams K gi g cs em (if g.bias_correction then 1
        else 0) mt false g.params (expand g graw) (expand g opraw) sts 0
        buf ls).err with
    | some e =>
      rw [herr] at h
      exact procParams_fwd_no_undo K gi g cs em _ mt g.params _ _ sts 0
        buf ls gj j s h
    | none =>
      rw [herr] at h
      dsimp only at h
      cases mt with
      | false =>
        simp only [Bool.false_eq_true, if_false] at h
        exact procParams_fwd_no_undo K gi g cs em _ false g.params _ _ sts
          0 buf ls gj j s h
      | true =>
        simp only [eq_self_iff_true, if_true] at h
        cases hls : (procParams K gi g cs em (if g.bias_correction then 1
            else 0) true false g.params (expand g graw) (expand g opraw)
            sts 0 buf ls).ls with
        | none =>
          rw [hls] at h
          exact procParams_fwd_no_undo K gi g cs em _ true g.params _ _
            sts 0 buf ls gj j s h
        | some s2 =>
          rw [hls] at h
          simp only [List.mem_append] at h
          rcases h with h | h
          · exact procParams_fwd_no_undo K gi g cs em _ true g.params _ _
              sts 0 buf ls gj j s h
          · simp at h

theorem procGroups_fwd_no_undo (K : KernelOracle) (scale : ℚ) (em : Nat)
    (mt : Bool) :
    ∀ (gs : List ParamGroup) (grs oprs : List (Option (List (Option Tensor))))
      (ns : List (Option ℚ)) (stss : List (List (Option ParamState)))
      (buf : Nat) (ls : Option Int) (gi0 gj j : Nat) (s : Int),
      Event.adamUndo gj j s
        ∉ (procGroups K scale em mt false gi0 gs grs oprs ns stss buf
            ls).evs := by
  intro gs
  induction gs with
  | nil => intro grs oprs ns stss buf ls gi0 gj j s h; simp [procGroups] at h
  | cons g gs ih =>
    intro grs oprs ns stss buf ls gi0 gj j s h
    cases grs with
    | nil => simp [procGroups] at h
    | cons gr grs =>
      cases oprs with
      | nil => simp [procGroups] at h
      | cons opr oprs =>
        cases ns with
        | nil => simp [procGroups] at h
        | cons n ns =>
          cases stss with
          | nil => simp [procGroups] at h
          | cons sts stss =>
            simp only [procGroups] at h
            cases herr : (procGroup K gi0 g gr opr n scale em mt false sts
                buf ls).err with
            | some e =>
              rw [herr] at h
              exact procGroup_fwd_no_undo K gi0 g gr opr n scale em mt sts
                buf ls gj j s (by simpa using h)
            | none =>
              rw [herr] at h
              dsimp only at h
              rw [List.mem_append] at h
              rcases h with h | h
              · exact procGroup_fwd_no_undo K gi0 g gr opr n scale em mt
                  sts buf ls gj j s h
              · exact ih grs oprs ns stss _ _ (gi0 + 1) gj j s h

theorem procGroups_stss_length (K : KernelOracle) (scale : ℚ) (em : Nat)
    (mt u : Bool) :
    ∀ (gs : List ParamGroup) (grs oprs : List (Option (List (Option Tensor))))
      (ns : List (Option ℚ)) (stss : List (List (Option ParamState)))
      (buf : Nat) (ls : Option Int) (gi0 : Nat),
      (procGroups K scale em mt u gi0 gs grs oprs ns stss buf
          ls).stss.length = stss.length := by
  intro gs
  induction gs with
  | nil => intro grs oprs ns stss buf ls gi0; simp [procGroups]
  | cons g gs ih =>
    intro grs oprs ns stss buf ls gi0
    cases grs with
    | nil => simp [procGroups]
    | cons gr grs =>
      cases oprs with
      | nil => simp [procGroups]
      | cons opr oprs =>
        cases ns with
        | nil => simp [procGroups]
        | cons n ns =>
          cases stss with
          | nil => simp [procGroups]
          | cons sts stss =>
            simp only [procGroups]
            cases herr : (procGroup K gi0 g gr opr n scale em mt u sts buf
                ls).err with
            | some e => simp
            | none => simp [ih]

/-- C5 counterexample: a step over one group whose gradients are
`[dense, sparse]` raises the sparse-gradient error, yet the first
parameter's state is not left untouched: its entry changes from
uninitialised to an initialised, stepped state. -/
theorem C5_counterexample :
    (oc1.step K0 none (some (Sum.inl [some tG, some tS] : RawIn)) none 1
        none).ret = .error .sparseGrad ∧
    listGet2 (oc1.step K0 none (some (Sum.inl [some tG, some tS] : RawIn))
        none 1 none).opt.states 0 0
      ≠ listGet2 oc1.states 0 0 := by
  constructor
  · rfl
  · decide

/-- C5 (amended): when some parameter's resolved gradient is sparse
(the first sparse one being parameter `pi` of group `gs1.length`, with
all groups before processed without error), the `step` call raises the
unsupported-sparse-gradient error; the sparse parameter itself and all
parameters not yet reached in iteration order (at or after it in its
group, or in later groups) are left untouched with no kernel dispatch,
and no rollback (no undo kernel invocation) is attempted for the
parameters already processed in that call. -/
theorem C5_amended (o : FusedAdam) (K : KernelOracle) (c : Option ℚ)
    (grads outs : Option RawIn) (scale : ℚ) (gn : Option (List (Option ℚ)))
    (gg og : List (Option (List (Option Tensor))))
    (hst : o.amp_stash = none)
    (hg : toGroups grads o.param_groups.length = .ok gg)
    (ho : toGroups outs o.param_groups.length = .ok og)
    (gs1 : List ParamGroup) (g : ParamGroup) (gs2 : List ParamGroup)
    (gg1 : List (Option (List (Option Tensor))))
    (gr : Option (List (Option Tensor)))
    (gg2 : List (Option (List (Option Tensor))))
    (og1 : List (Option (List (Option Tensor))))
    (opr : Option (List (Option Tensor)))
    (og2 : List (Option (List (Option Tensor))))
    (ns1 : List (Option ℚ)) (n0 : Option ℚ) (ns2 : List (Option ℚ))
    (stss1 : List (List (Option ParamState)))
    (sts : List (Option ParamState))
    (stss2 : List (List (Option ParamState)))
    (hgs : o.param_groups = gs1 ++ g :: gs2)
    (hggd : gg = gg1 ++ gr :: gg2) (hogd : og = og1 ++ opr :: og2)
    (hnd : gn.getD (List.replicate o.param_groups.length none)
      = ns1 ++ n0 :: ns2)
    (hstd : o.states = stss1 ++ sts :: stss2)
    (hl1 : gg1.length = gs1.length) (hl2 : og1.length = gs1.length)
    (hl3 : ns1.length = gs1.length) (hl4 : stss1.length = gs1.length)
    (hpre : (procGroups K scale o.eps_mode o.use_multi_tensor false 0 gs1
        gg1 og1 ns1 stss1 0 none).err = none)
    (cs : ℚ) (hcs : combinedScale g.max_grad_norm n0 scale = .ok cs)
    (pi : Nat) (t : Tensor)
    (hsp : resolvedAt g.params (expand g gr) (expand g opr) sts pi
      = some t)
    (hts : t.isSparse = true)
    (hpresp : ∀ j, j < pi → ∀ v,
      resolvedAt g.params (expand g gr) (expand g opr) sts j = some v →
      v.isSparse = false) :
    (o.step K c grads outs scale gn).ret = .error .sparseGrad ∧
    (∀ j, pi ≤ j →
      listGet2 (o.step K c grads outs scale gn).opt.states gs1.length j
        = listGet2 o.states gs1.length j) ∧
    (∀ gj, gs1.length < gj → ∀ j,
      listGet2 (o.step K c grads outs scale gn).opt.states gj j
        = listGet2 o.states gj j) ∧
    (∀ j s, pi ≤ j →
      Event.adam gs1.length j s ∉ (o.step K c grads outs scale gn).evs) ∧
    (∀ gj, gs1.length < gj → ∀ j s,
      Event.adam gj j s ∉ (o.step K c grads outs scale gn).evs) ∧
    (∀ gj j s,
      Event.adamUndo gj j s ∉ (o.step K c grads outs scale gn).evs) := by
  have hob : ({ o with overflow_buf := 0 } : FusedAdam).overflow_buf
      = 0 := rfl
  have hfwd := stepFwd_eq ({ o with overflow_buf := 0 }) K c grads outs
    scale gn gg og hst hg ho
  obtain ⟨e1, e2, e3⟩ := procParams_sparse K gs1.length g cs o.eps_mode
    (if g.bias_correction then 1 else 0) o.use_multi_tensor false g.params
    (expand g gr) (expand g opr) sts 0
    (procGroups K scale o.eps_mode o.use_multi_tensor false 0 gs1 gg1 og1
      ns1 stss1 0 none).buf
    (procGroups K scale o.eps_mode o.use_multi_tensor false 0 gs1 gg1 og1
      ns1 stss1 0 none).ls pi t hsp hts hpresp
  have hrg : procGroup K gs1.length g gr opr n0 scale o.eps_mode
      o.use_multi_tensor false sts
      (procGroups K scale o.eps_mode o.use_multi_tensor false 0 gs1 gg1
        og1 ns1 stss1 0 none).buf
      (procGroups K scale o.eps_mode o.use_multi_tensor false 0 gs1 gg1
        og1 ns1 stss1 0 none).ls
      = procParams K gs1.length g cs o.eps_mode
          (if g.bias_correction then 1 else 0) o.use_multi_tensor false
          g.params (expand g gr) (expand g opr) sts 0
          (procGroups K scale o.eps_mode o.use_multi_tensor false 0 gs1
            gg1 og1 ns1 stss1 0 none).buf
          (procGroups K scale o.eps_mode o.use_multi_tensor false 0 gs1
            gg1 og1 ns1 stss1 0 none).ls := by
    unfold procGroup
    rw [hcs]
    dsimp only
    rw [e1]
  have happ := procGroups_append K scale o.eps_mode o.use_multi_tensor
    false gs1 gg1 og1 ns1 stss1 hl1 hl2 hl3 hl4 (g :: gs2) (gr :: gg2)
    (opr :: og2) (n0 :: ns2) (sts :: stss2) 0 0 none
  rw [hpre] at happ
  dsimp only at happ
  simp only [Nat.zero_add, procGroups] at happ
  rw [hrg, e1] at happ
  dsimp only at happ
  rw [hob, hnd, hgs, hggd, hogd, hstd] at hfwd
  rw [happ] at hfwd
  dsimp only at hfwd
  have hplen : (procGroups K scale o.eps_mode o.use_multi_tensor false 0
      gs1 gg1 og1 ns1 stss1 0 none).stss.length = gs1.length := by
    rw [procGroups_stss_length]
    exact hl4
  have hpevs := procGroups_evs K scale o.eps_mode o.use_multi_tensor false
    gs1 gg1 og1 ns1 stss1 0 none 0
  have hpnoundo := procGroups_fwd_no_undo K scale o.eps_mode
    o.use_multi_tensor gs1 gg1 og1 ns1 stss1 0 none 0
  have hidx : ∀ X : List (List (Option ParamState)),
      X.length = gs1.length → ∀ (a : List (Option ParamState))
      (Y : List (List (Option ParamState))),
      (X ++ a :: Y)[gs1.length]? = some a := by
    intro X hX a Y
    rw [List.getElem?_append_right (by omega)]
    simp [hX]
  have hidx2 : ∀ X : List (List (Option ParamState)),
      X.length = gs1.length → ∀ (a : List (Option ParamState))
      (Y : List (List (Option ParamState))) (k : Nat),
      (X ++ a :: Y)[gs1.length + k + 1]? = Y[k]? := by
    intro X hX a Y k
    rw [List.getElem?_append_right (by omega)]
    have harith : gs1.length + k + 1 - X.length = k + 1 := by omega
    rw [harith, List.getElem?_cons_succ]
  unfold FusedAdam.step
  dsimp only
  rw [hgs, hstd, hfwd]
  dsimp only
  refine ⟨rfl, ?_, ?_, ?_, ?_, ?_⟩
  · intro j hj
    simp only [listGet2]
    rw [hidx _ hplen, hidx _ hl4]
    simp only [Option.some_bind]
    exact e2 j hj
  · intro gj hgj j
    simp only [listGet2]
    obtain ⟨k, rfl⟩ : ∃ k, gj = gs1.length + k + 1 :=
      ⟨gj - gs1.length - 1, by omega⟩
    rw [hidx2 _ hplen, hidx2 _ hl4]
  · intro j s hj hmem
    rcases List.mem_cons.mp hmem with h | h
    · exact Event.noConfusion h
    · rcases List.mem_append.mp h with h | h
      · obtain ⟨gj', hgj', -, hlt, -⟩ := hpevs _ h
        simp only [evGroup, Option.some.injEq] at hgj'
        omega
      · obtain ⟨j', s', hj', hlt⟩ := e3 _ h
        rcases hj' with hj' | hj'
        · rw [Event.adam.injEq] at hj'
          obtain ⟨-, hj2, -⟩ := hj'
          omega
        · exact Event.noConfusion hj'
  · intro gj hgj j s hmem
    rcases List.mem_cons.mp hmem with h | h
    · exact Event.noConfusion h
    · rcases List.mem_append.mp h with h | h
      · obtain ⟨gj', hgj', -, hlt, -⟩ := hpevs _ h
        simp only [evGroup, Option.some.injEq] at hgj'
        omega
      · obtain ⟨j', s', hj', hlt⟩ := e3 _ h
        rcases hj' with hj' | hj'
        · rw [Event.adam.injEq] at hj'
          obtain ⟨hj1, -, -⟩ := hj'
          omega
        · exact Event.noConfusion hj'
  · intro gj j s hmem
    rcases List.mem_cons.mp hmem with h | h
    · exact Event.noConfusion h
    · rcases List.mem_append.mp h with h | h
      · exact hpnoundo gj j s h
      · exact procParams_fwd_no_undo K gs1.length g cs o.eps_mode
          (if g.bias_correction then 1 else 0) o.use_multi_tensor g.params
          (expand g gr) (expand g opr) sts 0 _ _ gj j s h

/-- C5 witness: in the concrete `[dense, sparse]` run the error is
raised, the sparse parameter itself is untouched and gets no kernel
call, and no undo call is made. -/
theorem C5_amended_witness :
    (oc1.step K0 none (some (Sum.inl [some tG, some tS] : RawIn)) none 1
        none).ret = .error .sparseGrad ∧
    listGet2 (oc1.step K0 none (some (Sum.inl [some tG, some tS] : RawIn))
        none 1 none).opt.states 0 1 = listGet2 oc1.states 0 1 ∧
    (∀ s : Int, Event.adam 0 1 s
      ∉ (oc1.step K0 none (some (Sum.inl [some tG, some tS] : RawIn)) none
          1 none).evs) ∧
    (∀ (gj j : Nat) (s : Int), Event.adamUndo gj j s
      ∉ (oc1.step K0 none (some (Sum.inl [some tG, some tS] : RawIn)) none
          1 none).evs) := by
  obtain ⟨h1, h2, -, h4, -, h6⟩ := C5_amended oc1 K0 none
    (some (Sum.inl [some tG, some tS] : RawIn)) none 1 none
    [some [some tG, some tS]] [none] rfl rfl rfl
    [] grpGN [] [] (some [some tG, some tS]) [] [] none [] [] none []
    [] [none, none] []
    rfl rfl rfl rfl rfl rfl rfl rfl rfl rfl 1 rfl 1 tS rfl rfl
    (by
      intro j hj v hv
      cases j with
      | zero =>
        have h0 : resolvedAt grpGN.params
            (expand grpGN (some [some tG, some tS]))
            (expand grpGN none) [none, none] 0 = some tG := rfl
        rw [h0] at hv
        rw [← Option.some.inj hv]
        rfl
      | succ j => omega)
  exact ⟨h1, h2 1 (le_refl 1), fun s => h4 1 s (le_refl 1), h6⟩
